import Mathlib

/-!
# Verification of the audiobook text-analysis pipeline

A shallow embedding of the `text-analyzer` service of the audiobook
pipeline (directory `services/text-analyzer/app`), together with proofs
about the embedded functions.

Conventions used throughout:

* Python strings are modelled as Lean `String`s; character-level
  operations go through `String.data : String → List Char`.
* Python `float` is modelled as `ℚ` (the only operations performed on
  `intensity` are clamping and comparison with literals, which agree).
* Python lists that are mutated in place are modelled by functions that
  return the updated list.
* The two LLM-backed nodes receive their network responses through
  explicit oracle parameters standing for the parsed JSON value that the
  Python code extracts from the HTTP response; a failed or malformed call
  corresponds to the oracle returning the empty response.
* Wall-clock durations measured with `time.monotonic_ns` are modelled by
  an explicit parameter giving each node's measured duration.
-/

namespace AudiobookPipeline

/-- Internal mutable segment flowing through the pipeline (`models.Segment`).
Fields keep the Python names. -/
structure Segment where
  id : Nat
  kind : String
  original_text : String
  speaker : String := "unknown"
  attribution_source : String := "none"
  emotion : String := "neutral"
  intensity : ℚ := 1/2
  pause_before_ms : Nat := 0
  paragraph_index : Nat := 0
  char_offset_start : Nat := 0
  char_offset_end : Nat := 0
  deriving DecidableEq, Repr

/-- `ALLOWED_EMOTIONS` from `models.py` (a frozenset; only membership is used). -/
def ALLOWED_EMOTIONS : List String :=
  ["neutral", "happy", "sad", "angry", "fearful", "excited", "tense", "contemplative"]

/-- Python `str.lower` restricted to the character data (ASCII-faithful). -/
def pyLower (s : String) : String := ⟨s.data.map Char.toLower⟩

/-- `needle` occurs as a contiguous sublist of the second argument
(Python's `needle in hay` on strings). -/
def list_contains_sub : List Char → List Char → Bool
  | needle, [] => needle.isEmpty
  | needle, c :: rest => needle.isPrefixOf (c :: rest) || list_contains_sub needle rest

/-- Python `needle in hay` for strings. -/
def str_contains_sub (hay needle : String) : Bool :=
  list_contains_sub needle.data hay.data

/-- Python `s.startswith(p)` at the character level. -/
def starts_with (s p : String) : Bool := p.data.isPrefixOf s.data

/-! ## Node 3 — Turn-Taking (`nodes/turn_taking.py`) -/

/-- `_NARRATION_GAP_RESET`: maximum gap of consecutive narration segments
before the conversation context resets. -/
def NARRATION_GAP_RESET : Nat := 2

/-- Insert `name → None` into the ordered map unless present
(`known_speakers.setdefault(seg.speaker, None)`). -/
def ks_setdefault (ks : List (String × Option String)) (name : String) :
    List (String × Option String) :=
  if (ks.lookup name).isSome then ks else ks ++ [(name, none)]

/-- Overwrite the value stored for `name` (`known_speakers[name] = g`),
keeping insertion order. -/
def ks_set (ks : List (String × Option String)) (name : String) (g : Option String) :
    List (String × Option String) :=
  ks.map fun kv => if kv.1 = name then (name, g) else kv

/-- First pass of `_resolve_pronouns`: collect known speakers from explicit
attributions, each mapped to an unknown gender. -/
def collect_known_speakers (segments : List Segment) : List (String × Option String) :=
  segments.foldl
    (fun ks seg =>
      if seg.attribution_source = "explicit" ∧ seg.speaker ≠ "narrator" then
        ks_setdefault ks seg.speaker
      else ks)
    []

/-- Gender vote of one neighbouring segment in `_resolve_pronouns`:
if it is narration, look for whole-substring pronouns in the lowercased
text (`" he "`, `" his "`, `" him "` → male; `" she "`, `" her "`,
`" hers "` → female, the male check winning). -/
def gender_from_neighbor (ks : List (String × Option String)) (name : String) :
    Option Segment → List (String × Option String)
  | none => ks
  | some nseg =>
    if nseg.kind = "narration" then
      let tl := pyLower nseg.original_text
      if str_contains_sub tl " he " || str_contains_sub tl " his " ||
          str_contains_sub tl " him " then
        ks_set ks name (some "male")
      else if str_contains_sub tl " she " || str_contains_sub tl " her " ||
          str_contains_sub tl " hers " then
        ks_set ks name (some "female")
      else ks
    else ks

/-- Second pass of `_resolve_pronouns`: for each explicitly attributed
segment, infer its speaker's gender from the adjacent narration
(indices `i-1` and `i+1`; an out-of-range index is skipped). -/
def infer_genders (segments : List Segment)
    (ks0 : List (String × Option String)) : List (String × Option String) :=
  (List.range segments.length).foldl
    (fun ks i =>
      match segments.get? i with
      | none => ks
      | some seg =>
        if seg.attribution_source = "explicit" ∧ (ks.lookup seg.speaker).isSome then
          let ks1 := if 1 ≤ i then gender_from_neighbor ks seg.speaker (segments.get? (i - 1))
                     else ks
          gender_from_neighbor ks1 seg.speaker (segments.get? (i + 1))
        else ks)
    ks0

/-- Python `seg.attribution_source.split("_", 1)[1]`: the text after the
first underscore (the guard `startswith("pronoun_")` ensures one exists;
we return `""` in the impossible no-underscore case to stay total). -/
def after_first_underscore (s : String) : String :=
  ⟨((s.data.dropWhile (· ≠ '_')).drop 1)⟩

/-- Third pass of `_resolve_pronouns`: resolve each `pronoun_*`-tagged
segment when exactly one known speaker has the tagged gender. -/
def resolve_pronoun_segments (ks : List (String × Option String))
    (segments : List Segment) : List Segment :=
  segments.map fun seg =>
    if starts_with seg.attribution_source "pronoun_" then
      let gender := after_first_underscore seg.attribution_source
      let candidates := (ks.filter fun kv => kv.2 = some gender).map (·.1)
      match candidates with
      | [c] => { seg with speaker := c, attribution_source := "turn_taking" }
      | _ => seg
    else seg

/-- `_resolve_pronouns` from `turn_taking.py`. -/
def resolve_pronouns (segments : List Segment) : List Segment :=
  resolve_pronoun_segments
    (infer_genders segments (collect_known_speakers segments)) segments

/-- `_alternate_speakers` from `turn_taking.py`.

The Python function walks the list mutating it in place while keeping
`conv_speakers` (ordered history of the current conversation block,
appended at the right end) and `narration_streak`.  Here `conv` stores the
same history most-recent-first, so `conv_speakers[-1]` is `conv.head` and
`conv_speakers[-2]` is the second element. -/
def alternate_speakers (conv : List String) (streak : Nat) :
    List Segment → List Segment
  | [] => []
  | seg :: rest =>
    if seg.kind = "narration" then
      let streak' := streak + 1
      let conv' := if NARRATION_GAP_RESET ≤ streak' then [] else conv
      seg :: alternate_speakers conv' streak' rest
    else if seg.kind = "dialogue" then
      if seg.speaker ≠ "unknown" ∧ seg.attribution_source ≠ "none" then
        -- Known speaker — add to conversation history (if not already last).
        let conv' := if conv.head? = some seg.speaker then conv else seg.speaker :: conv
        seg :: alternate_speakers conv' 0 rest
      else
        match conv with
        | last :: second_last :: others =>
          -- `assigned = second_last if last == conv_speakers[-1] else last`:
          -- the source compares `last` with itself, so `second_last` is chosen.
          let assigned := if last = last then second_last else last
          let seg' := { seg with speaker := assigned, attribution_source := "turn_taking" }
          seg' :: alternate_speakers (assigned :: last :: second_last :: others) 0 rest
        | _ =>
          -- Fewer than two known speakers — leave for AI attribution.
          seg :: alternate_speakers conv 0 rest
    else
      seg :: alternate_speakers conv 0 rest

/-- The `(conv_speakers, narration_streak)` state left behind by
`alternate_speakers` after walking a list (same branch structure). -/
def alt_state (conv : List String) (streak : Nat) :
    List Segment → List String × Nat
  | [] => (conv, streak)
  | seg :: rest =>
    if seg.kind = "narration" then
      let streak' := streak + 1
      let conv' := if NARRATION_GAP_RESET ≤ streak' then [] else conv
      alt_state conv' streak' rest
    else if seg.kind = "dialogue" then
      if seg.speaker ≠ "unknown" ∧ seg.attribution_source ≠ "none" then
        let conv' := if conv.head? = some seg.speaker then conv else seg.speaker :: conv
        alt_state conv' 0 rest
      else
        match conv with
        | last :: second_last :: others =>
          let assigned := if last = last then second_last else last
          alt_state (assigned :: last :: second_last :: others) 0 rest
        | _ => alt_state conv 0 rest
    else
      alt_state conv 0 rest

/-- `apply_turn_taking` from `turn_taking.py`: pronoun resolution followed
by alternation. -/
def apply_turn_taking (segments : List Segment) : List Segment :=
  alternate_speakers [] 0 (resolve_pronouns segments)

/-! ## Node 6 — Validation (`nodes/validation.py`) -/

/-- Python's whitespace class `\s` (ASCII fragment; the texts handled in
this development contain no non-ASCII whitespace). -/
def isPySpace (c : Char) : Bool :=
  c = ' ' || c = '\t' || c = '\n' || c = '\r' || c = '\x0b' || c = '\x0c'

/-- `re.sub(r"\s+", " ", ·)`: replace every maximal whitespace run with a
single space.  The flag records whether the previous character was
whitespace (run already replaced). -/
def collapse_go (prevSpace : Bool) : List Char → List Char
  | [] => []
  | c :: rest =>
    if isPySpace c then
      if prevSpace then collapse_go true rest
      else ' ' :: collapse_go true rest
    else c :: collapse_go false rest

/-- Remove trailing whitespace (the right half of Python `str.strip()`). -/
def rstrip_sp : List Char → List Char
  | [] => []
  | c :: rest =>
    let r := rstrip_sp rest
    if r.isEmpty && isPySpace c then [] else c :: r

/-- Python `str.strip()`: drop leading and trailing whitespace. -/
def pyStripChars (l : List Char) : List Char :=
  rstrip_sp (l.dropWhile isPySpace)

/-- `_normalise` from `validation.py`: remove `“`, `”`, `"`, replace
newlines by spaces, collapse whitespace runs, strip.  (Replacing a
character by the empty string is removal; case is left untouched.) -/
def normalise (text : String) : String :=
  let t1 := text.data.filter (fun c => !(c = '“' || c = '”' || c = '"'))
  let t2 := t1.map (fun c => if c = '\n' then ' ' else c)
  ⟨pyStripChars (collapse_go false t2)⟩

/-- Python `str.split()` on whitespace at the character level (`acc` holds
the pending word reversed). -/
def words_go (acc : List Char) : List Char → List (List Char)
  | [] => if acc.isEmpty then [] else [acc.reverse]
  | c :: rest =>
    if isPySpace c then
      if acc.isEmpty then words_go [] rest
      else acc.reverse :: words_go [] rest
    else words_go (c :: acc) rest

/-- Python `str.split()` (no arguments). -/
def pyWords (s : String) : List String := (words_go [] s.data).map (⟨·⟩)

/-- Stable insertion into an id-sorted list: an element goes before the
first element whose id is ≥ its own. -/
def insert_by_id (s : Segment) : List Segment → List Segment
  | [] => [s]
  | t :: rest => if s.id ≤ t.id then s :: t :: rest else t :: insert_by_id s rest

/-- Python `sorted(segments, key=lambda s: s.id)`: the stable sort by id
(realised as stable insertion sort, which computes the same list). -/
def sorted_by_id (segments : List Segment) : List Segment :=
  segments.foldr insert_by_id []

/-- `" ".join(s.original_text for s in sorted(segments, key=lambda s: s.id))`. -/
def reconstruct (segments : List Segment) : String :=
  String.intercalate " " ((sorted_by_id segments).map (·.original_text))

/-- First-occurrence deduplication, used to enumerate a Python `set`.
(The iteration order of a Python set is unspecified; the theorems proved
below depend only on whether these enumerations are empty.) -/
def distinct_first : List String → List String
  | [] => []
  | w :: rest => w :: distinct_first (rest.filter (· ≠ w))
  termination_by l => l.length
  decreasing_by
    exact Nat.lt_succ_of_le (List.length_filter_le _ _)

/-- Elements of `a` (as a set) that are missing from `b` (as a set):
`set(a) - set(b)` enumerated in first-occurrence order. -/
def set_minus (a b : List String) : List String :=
  (distinct_first a).filter (fun w => ¬ w ∈ b)

/-- Simplified Python `repr` of a list of words, used only inside warning
messages (the words involved contain no quotes). -/
def repr_word_list (ws : List String) : String :=
  let q := String.singleton (Char.ofNat 39)
  "[" ++ String.intercalate ", " (ws.map (fun w => q ++ w ++ q)) ++ "]"

/-- Index of the first positional difference of two lists, scanning only
their common length (the `for j in range(min(...))` loop). -/
def first_mismatch_idx : List String → List String → Option Nat
  | a :: as2, b :: bs =>
    if a ≠ b then some 0 else (first_mismatch_idx as2 bs).map (· + 1)
  | _, _ => none

/-- `" ".join(words[max(0, j - 3):j + 4])`. -/
def context_around (ws : List String) (j : Nat) : String :=
  String.intercalate " " ((ws.drop (j - 3)).take (j + 4 - (j - 3)))

/-- `validate_completeness` from `validation.py`.  Returns
`(passed, issues)`; the Python function always returns (it never raises),
which the embedding reflects by being a total function. -/
def validate_completeness (segments : List Segment) (original_text : String) :
    Bool × List String :=
  if segments.isEmpty then (false, ["No segments produced"])
  else
    let original_norm := normalise original_text
    let reconstructed_norm := normalise (reconstruct segments)
    if original_norm = reconstructed_norm then (true, [])
    else
      let orig_words := pyWords original_norm
      let recon_words := pyWords reconstructed_norm
      let missing := set_minus orig_words recon_words
      let i1 : List String :=
        if missing.isEmpty then []
        else ["Words in original but not in segments: " ++ repr_word_list (missing.take 10)]
      let extra := set_minus recon_words orig_words
      let i2 : List String :=
        if extra.isEmpty then []
        else ["Words in segments but not in original: " ++ repr_word_list (extra.take 10)]
      let i3 : List String :=
        match first_mismatch_idx orig_words recon_words with
        | some j =>
          ["First word mismatch at position " ++ toString j ++ ": original=..." ++
            context_around orig_words j ++ "... reconstructed=..." ++
            context_around recon_words j ++ "..."]
        | none => []
      let i4 : List String :=
        if orig_words.length ≠ recon_words.length then
          ["Word count mismatch: original=" ++ toString orig_words.length ++
            ", reconstructed=" ++ toString recon_words.length]
        else []
      let issues := i1 ++ i2 ++ i3 ++ i4
      (issues.isEmpty, issues)

/-! ## Node 2 — Explicit Attribution (`nodes/explicit_attribution.py`) -/

/-- The regular-expression machinery of `attribute_explicit`, packaged as
pure string functions: `try_name_a ctx` stands for
`_try_named_match(ctx, pat_verb_name, 2)`, `try_name_b ctx` for
`_try_named_match(ctx, pat_name_verb, 1)`, and `try_pronoun ctx` for
`_try_pronoun_match(ctx, ...)` (the matched pronoun).  The patterns are
compiled from the speech-verb word list `data/speech_verbs.txt`, which is
not among the sources, so the matchers are taken as parameters; they are
functions of the context string only, exactly as in the code. -/
structure Matchers where
  try_name_a : String → Option String
  try_name_b : String → Option String
  try_pronoun : String → Option String

/-- The narration context contributed by the segment at index `j`
(`segments[j].original_text` when in range and of kind narration). -/
def narration_text_at (segments : List Segment) (j : Nat) : List String :=
  match segments.get? j with
  | some p => if p.kind = "narration" then [p.original_text] else []
  | none => []

/-- `context_parts` for the segment at index `i`: adjacent narration
before (when `i > 0`) and after. -/
def context_parts_at (segments : List Segment) (i : Nat) : List String :=
  (if 1 ≤ i then narration_text_at segments (i - 1) else []) ++
    narration_text_at segments (i + 1)

/-- One iteration of the `attribute_explicit` loop, for the segment at
index `i`.  The loop reads its neighbours from the list it is mutating,
but it only ever reads their `kind` and `original_text`, which it never
writes — so reading them from the input list is equivalent. -/
def attribute_explicit_step (m : Matchers) (segments : List Segment)
    (i : Nat) (seg : Segment) : Segment :=
  if seg.kind ≠ "dialogue" ∨ seg.speaker ≠ "unknown" then seg
  else
    let context_parts := context_parts_at segments i
    if context_parts = [] then seg
    else
      let context := String.intercalate " " context_parts
      match m.try_name_a context with
      | some name => { seg with speaker := name, attribution_source := "explicit" }
      | none =>
        match m.try_name_b context with
        | some name => { seg with speaker := name, attribution_source := "explicit" }
        | none =>
          match m.try_pronoun context with
          | some pronoun =>
            let gender := if pyLower pronoun = "he" then "male" else "female"
            { seg with attribution_source := "pronoun_" ++ gender }
          | none => seg

/-- Index-passing map used to run the per-index loop body. -/
def map_with_index (f : Nat → Segment → Segment) : Nat → List Segment → List Segment
  | _, [] => []
  | i, s :: rest => f i s :: map_with_index f (i + 1) rest

/-- `attribute_explicit` from `explicit_attribution.py`, with the regex
matchers as parameters. -/
def attribute_explicit (m : Matchers) (segments : List Segment) : List Segment :=
  map_with_index (attribute_explicit_step m segments) 0 segments

/-- Matchers that never match (the behaviour of the real patterns on a
context containing no speech verb). -/
def mNone : Matchers := ⟨fun _ => none, fun _ => none, fun _ => none⟩

/-- The projection of a segment that the two passes of
`_resolve_pronouns` read: kind, text, and the speaker of explicitly
attributed segments. -/
def proj (s : Segment) : String × String × Option String :=
  (s.kind, s.original_text,
    if s.attribution_source = "explicit" then some s.speaker else none)

/-! ## Node 5 — Pause/Timing (`nodes/pause_timing.py`) -/

def PAUSE_FIRST : Nat := 0
def PAUSE_SCENE_BREAK : Nat := 1000
def PAUSE_PARAGRAPH_BREAK : Nat := 500
def PAUSE_DIALOGUE_AFTER_NARRATION : Nat := 350
def PAUSE_NARRATION_AFTER_DIALOGUE : Nat := 300
def PAUSE_DIALOGUE_TURN : Nat := 250

/-- The pause chosen for a non-first segment from its predecessor
(the `if`/`elif` chain in `assign_pauses`; `para_gap` is an `Int` as in
Python). -/
def pause_rule (prev seg : Segment) : Nat :=
  let para_gap : Int := (seg.paragraph_index : Int) - (prev.paragraph_index : Int)
  if 1 < para_gap ∧ ¬(prev.kind = "narration" ∧ seg.kind = "narration") then
    PAUSE_SCENE_BREAK
  else if 1 ≤ para_gap then PAUSE_PARAGRAPH_BREAK
  else if seg.kind = "dialogue" ∧ prev.kind = "narration" then
    PAUSE_DIALOGUE_AFTER_NARRATION
  else if seg.kind = "narration" ∧ prev.kind = "dialogue" then
    PAUSE_NARRATION_AFTER_DIALOGUE
  else if seg.kind = "dialogue" ∧ prev.kind = "dialogue" then PAUSE_DIALOGUE_TURN
  else PAUSE_PARAGRAPH_BREAK

/-- The loop of `assign_pauses` from the second segment on: each segment
is updated from its (already-updated) predecessor; the rule never reads
the predecessor's `pause_before_ms`. -/
def assign_pauses_go (prev : Segment) : List Segment → List Segment
  | [] => []
  | seg :: rest =>
    let seg' := { seg with pause_before_ms := pause_rule prev seg }
    seg' :: assign_pauses_go seg' rest

/-- `assign_pauses` from `pause_timing.py`. -/
def assign_pauses : List Segment → List Segment
  | [] => []
  | seg :: rest =>
    let seg' := { seg with pause_before_ms := PAUSE_FIRST }
    seg' :: assign_pauses_go seg' rest

/-- The pause table exactly as claimed by the specification (first
matching rule, applied to the `(kind, paragraph_index)` data of the
previous and current segment). -/
def claimed_pause (prev_kind : String) (prev_para : Nat)
    (cur_kind : String) (cur_para : Nat) : Nat :=
  let para_gap : Int := (cur_para : Int) - (prev_para : Int)
  if 1 < para_gap ∧ ¬(prev_kind = "narration" ∧ cur_kind = "narration") then 1000
  else if 1 ≤ para_gap then 500
  else if cur_kind = "dialogue" ∧ prev_kind = "narration" then 350
  else if cur_kind = "narration" ∧ prev_kind = "dialogue" then 300
  else if cur_kind = "dialogue" ∧ prev_kind = "dialogue" then 250
  else 500

/-- Well-formedness of the output of `collapse_go`: every whitespace
character is a plain space, never followed by further whitespace. -/
def wk_ok : List Char → Bool
  | [] => true
  | c :: rest =>
    ((!isPySpace c) ||
      (c = ' ' && (match rest with | [] => true | d :: _ => !isPySpace d))) &&
    wk_ok rest

/-- Strengthening of `wk_ok`: every space is followed by a non-space
character (so in particular there is no trailing space). -/
def no_bad_space : List Char → Bool
  | [] => true
  | c :: rest =>
    ((!isPySpace c) ||
      (c = ' ' && (match rest with | [] => false | d :: _ => !isPySpace d))) &&
    no_bad_space rest

/-- `" ".join` at the character level. -/
def join_words : List (List Char) → List Char
  | [] => []
  | [w] => w
  | w :: ws => w ++ ' ' :: join_words ws

/-! ## Node 1 — Segment Splitter (`nodes/segment_splitter.py`) -/

def OPEN_QUOTES : List Char := ['“', '«']
def CLOSE_QUOTES : List Char := ['”', '»']
def STRAIGHT_DOUBLE : Char := '"'

/-- `_CLOSING_CONTEXT`: characters that make a following straight quote a
closing one. -/
def CLOSING_CONTEXT : List Char :=
  ("abcdefghijklmnopqrstuvwxyz" ++ "ABCDEFGHIJKLMNOPQRSTUVWXYZ" ++
    "0123456789" ++ ".,!?;…’'").data

/-- `_is_closing_straight_quote`, phrased on the character before the
quote (`none` at position 0, where the function returns `False`). -/
def is_closing_straight (prev : Option Char) : Bool :=
  match prev with
  | none => false
  | some p => CLOSING_CONTEXT.contains p

/-- One `(start, end, kind, raw_text)` tuple of `_extract_quote_spans`. -/
structure Span where
  start : Nat
  stop : Nat
  kind : String
  raw : List Char
  deriving DecidableEq, Repr

/-- `text[a:b]` on a character list. -/
def slice (l : List Char) (a b : Nat) : List Char := (l.drop a).take (b - a)

/-- The character loop of `_extract_quote_spans`.  The first list is the
whole paragraph (used only for slicing); the second is its suffix from
position `i`; `prev` is the character at `i - 1`; `state` is `true` in
the DIALOGUE state; `spanStart` and `dts` are `span_start` and
`dialogue_text_start`.  The `[]` case is the flush after the loop, where
`i` has reached the paragraph length. -/
def extract_go (para : List Char) : List Char → Option Char → Nat → Bool → Nat → Nat →
    List Span
  | [], _, i, state, spanStart, dts =>
    if spanStart < i then
      if state then [⟨spanStart, i, "dialogue", slice para dts i⟩]
      else [⟨spanStart, i, "narration", slice para spanStart i⟩]
    else []
  | c :: rest, prev, i, state, spanStart, dts =>
    if state = false then
      if c ∈ OPEN_QUOTES ∨ (c = STRAIGHT_DOUBLE ∧ ¬ is_closing_straight prev) then
        (if spanStart < i then [⟨spanStart, i, "narration", slice para spanStart i⟩]
         else []) ++
          extract_go para rest (some c) (i + 1) true i (i + 1)
      else extract_go para rest (some c) (i + 1) false spanStart dts
    else
      if c ∈ CLOSE_QUOTES ∨ (c = STRAIGHT_DOUBLE ∧ is_closing_straight prev) then
        ⟨spanStart, i + 1, "dialogue", slice para dts i⟩ ::
          extract_go para rest (some c) (i + 1) false (i + 1) dts
      else extract_go para rest (some c) (i + 1) true spanStart dts

/-- `_extract_quote_spans` from `segment_splitter.py`. -/
def extract_quote_spans (para : List Char) : List Span :=
  extract_go para para none 0 false 0 0

/-- `_split_paragraphs`: split on `\n`, preserving blanks
(`"".split("\n") == [""]`). -/
def split_nl : List Char → List (List Char)
  | [] => [[]]
  | c :: rest =>
    if c = '\n' then [] :: split_nl rest
    else
      match split_nl rest with
      | [] => [[c]]
      | p :: ps => (c :: p) :: ps

/-- The inner span loop of `split_segments`: build a segment for each
span whose stripped text is non-empty, numbering them from `segId`. -/
def spans_to_segments (paraIdx globalOffset : Nat) :
    List Span → Nat → List Segment × Nat
  | [], segId => ([], segId)
  | sp :: rest, segId =>
    let stripped := pyStripChars sp.raw
    if stripped.isEmpty then spans_to_segments paraIdx globalOffset rest segId
    else
      let out := spans_to_segments paraIdx globalOffset rest (segId + 1)
      ({ id := segId, kind := sp.kind, original_text := ⟨stripped⟩,
          speaker := if sp.kind = "narration" then "narrator" else "unknown",
          paragraph_index := paraIdx,
          char_offset_start := globalOffset + sp.start,
          char_offset_end := globalOffset + sp.stop } :: out.1, out.2)

/-- The paragraph loop of `split_segments`: whitespace-only paragraphs
advance the offset but produce nothing. -/
def mk_segments : List (List Char) → Nat → Nat → Nat → List Segment
  | [], _, _, _ => []
  | para :: rest, paraIdx, globalOffset, segId =>
    if (pyStripChars para).isEmpty then
      mk_segments rest (paraIdx + 1) (globalOffset + para.length + 1) segId
    else
      let out := spans_to_segments paraIdx globalOffset (extract_quote_spans para) segId
      out.1 ++ mk_segments rest (paraIdx + 1) (globalOffset + para.length + 1) out.2

/-- The merge loop of `_merge_consecutive_narration`; `cur` is the last
element of `merged`, which the Python loop extends in place. -/
def merge_go (maxChars : Nat) (cur : Segment) : List Segment → List Segment
  | [] => [cur]
  | seg :: rest =>
    if cur.kind = "narration" ∧ seg.kind = "narration" ∧
        cur.original_text.length + seg.original_text.length + 1 ≤ maxChars then
      merge_go maxChars
        { cur with
            original_text := cur.original_text ++ "\n" ++ seg.original_text,
            char_offset_end := seg.char_offset_end } rest
    else cur :: merge_go maxChars seg rest

/-- The re-numbering pass at the end of `_merge_consecutive_narration`. -/
def renumber : List Segment → Nat → List Segment
  | [], _ => []
  | s :: rest, i => { s with id := i } :: renumber rest (i + 1)

/-- `_merge_consecutive_narration` from `segment_splitter.py`. -/
def merge_consecutive_narration (segments : List Segment) (maxChars : Nat := 800) :
    List Segment :=
  match segments with
  | [] => []
  | s :: rest => renumber (merge_go maxChars s rest) 1

/-- `split_segments` from `segment_splitter.py` (with the merge pass,
`max_chars=800`). -/
def split_segments (text : String) : List Segment :=
  merge_consecutive_narration (mk_segments (split_nl text.data) 0 0 1) 800

/-- Builder for concrete test segments. -/
def wSeg (i : Nat) (kind speaker src : String) : Segment :=
  { id := i, kind := kind, original_text := "t", speaker := speaker,
    attribution_source := src }

/-- Concrete five-segment dialogue run used to instantiate the turn-taking
theorems: two attributed segments (Anna, Ben) followed by three unknowns. -/
def c1pre : List Segment :=
  [wSeg 1 "dialogue" "Anna" "explicit", wSeg 2 "dialogue" "Ben" "explicit"]

/-- Concrete list on which `apply_turn_taking` is not idempotent: segment
3 is explicitly attributed yet has `speaker="unknown"`, so alternation
rewrites it; on the second run the pronoun pass then sees one fewer male
candidate and resolves segment 8. -/
def ex8 : List Segment :=
  [ wSeg 1 "dialogue" "Ann" "explicit",
    wSeg 2 "dialogue" "Cid" "explicit",
    wSeg 3 "dialogue" "unknown" "explicit",
    { id := 4, kind := "narration", original_text := " he said hello ",
      speaker := "narrator" },
    wSeg 5 "dialogue" "Bob" "explicit",
    { id := 6, kind := "narration", original_text := "aaa", speaker := "narrator" },
    { id := 7, kind := "narration", original_text := "bbb", speaker := "narrator" },
    wSeg 8 "dialogue" "unknown" "pronoun_male" ]


/-- The spans produced by the extraction loop form a chain inside
`[a, b]`: each span is non-empty, starts no earlier than `a`, ends by
`b`, and each subsequent span starts where reasoning about the previous
one left off. -/
def Chained : Nat → Nat → List Span → Prop
  | _, _, [] => True
  | a, b, sp :: rest =>
    a ≤ sp.start ∧ sp.start < sp.stop ∧ sp.stop ≤ b ∧ Chained sp.stop b rest

/-- Input for the scene-break scenario: an Anna/Ben conversation, two
short pure-narration paragraphs, then unattributed dialogue. -/
def exText : String :=
  "Then said Anna, \"Hi.\"\n\"Hey,\" said Ben. \"How are you?\"\nThe rain fell.\nThe garden slept.\n\"Anyone here?\""

/-- Modelled from the spec: the stage-2 pattern matcher `VERB NAME` over
the speech-verb word list (the list itself, `data/speech_verbs.txt`, is
not among the sources; per the spec it contains `said`, `asked`,
`whispered`, ...).  On the four narration contexts arising from `exText`
the pattern `\b(said|...)\s+((?:the\s+)?[A-Z][a-z]+...)` matches
`said Anna` resp. `said Ben` in the first three and nothing in the
verb-free last one; all other inputs are irrelevant to the run. -/
def exA : String → Option String := fun ctx =>
  if ctx = "Then said Anna," then some "Anna"
  else if ctx = "said Ben." then some "Ben"
  else if ctx = "said Ben. The rain fell.\nThe garden slept." then some "Ben"
  else none

/-- Modelled from the spec: matcher set for `exText` (patterns B, C, D
match nothing on the verb-free contexts where they are consulted). -/
def exM : Matchers := ⟨exA, fun _ => none, fun _ => none⟩

/-! ## Node 8 — Emotion Classifier (`nodes/emotion_classifier.py`) -/

/-- Python character slice `s[:n]`. -/
def py_take (s : String) (n : Nat) : String := ⟨s.data.take n⟩

/-- `_BATCH_SIZE` in `emotion_classifier.py`. -/
def BATCH_SIZE : Nat := 30

/-- The item dicts sent to the LLM for one batch:
`{"id": s.id, "speaker": s.speaker, "text": s.original_text[:300]}`. -/
def emotion_items (batch : List Segment) : List (Nat × String × String) :=
  batch.map (fun s => (s.id, s.speaker, py_take s.original_text 300))

/-- The per-segment update of the batch loop in `classify_emotions`:
`if seg.id in emotion_map:` then, when the returned emotion is allowed,
`seg.emotion = emotion; seg.intensity = max(0.0, min(1.0, intensity))`. -/
def apply_emotion_map (m : Nat → Option (String × ℚ)) (s : Segment) : Segment :=
  match m s.id with
  | some (em, inten) =>
    if em ∈ ALLOWED_EMOTIONS then
      { s with emotion := em, intensity := max 0 (min 1 inten) }
    else s
  | none => s

/-- The `range(0, len(segments), _BATCH_SIZE)` batch loop of
`classify_emotions`, with fuel for structural recursion (instantiated
with the list length, an upper bound on the number of batches). -/
def classify_go
    (oracle : List (Nat × String × String) → Nat → Option (String × ℚ)) :
    Nat → List Segment → List Segment
  | 0, segs => segs
  | _ + 1, [] => []
  | fuel + 1, s :: rest =>
    let batch := s :: rest.take (BATCH_SIZE - 1)
    let m := oracle (emotion_items batch)
    batch.map (apply_emotion_map m) ++
      classify_go oracle fuel (rest.drop (BATCH_SIZE - 1))

/-- `classify_emotions` from `emotion_classifier.py`: batches of 30 over
the WHOLE segment list (not only dialogue); the LLM is abstracted by
`oracle`, mapping each batch's item list to the returned
id → (emotion, intensity) dict (`{}` on failure is the everywhere-`none`
oracle). -/
def classify_emotions
    (oracle : List (Nat × String × String) → Nat → Option (String × ℚ))
    (segments : List Segment) : List Segment :=
  if segments.isEmpty then segments
  else classify_go oracle segments.length segments

/-! ## Node 4 — Character Registry (`nodes/character_registry.py`) -/

/-- Python regex `\w` (ASCII fragment; the texts handled in this
development contain no non-ASCII word characters). -/
def isWordChar (c : Char) : Bool := c.isAlpha || c.isDigit || c = '_'

/-- A whole-word (`\b...\b`) match of `w` at the head of `l`, where `prev`
is the character just before `l` (if any). -/
def word_at (w : List Char) (prev : Option Char) (l : List Char) : Bool :=
  (match prev with
   | none => true
   | some p => !(isWordChar p)) &&
  w.isPrefixOf l &&
  (match l.drop w.length with
   | [] => true
   | c :: _ => !(isWordChar c))

/-- Scan for a whole-word occurrence of `w` anywhere in the list. -/
def word_search (w : List Char) : Option Char → List Char → Bool
  | prev, [] => word_at w prev []
  | prev, c :: rest => word_at w prev (c :: rest) || word_search w (some c) rest

/-- `re.search(r"\b(w)\b", text, re.IGNORECASE)` truthiness for a single
lowercase word `w` (case-insensitivity via lowercasing the text). -/
def has_word (w text : String) : Bool :=
  word_search w.data none (pyLower text).data

/-- `_MALE_PATTERN.search` truthiness: `\b(he|him|his)\b`, ignorecase. -/
def male_search (t : String) : Bool :=
  has_word "he" t || has_word "him" t || has_word "his" t

/-- `_FEMALE_PATTERN.search` truthiness: `\b(she|her|hers)\b`, ignorecase. -/
def female_search (t : String) : Bool :=
  has_word "she" t || has_word "her" t || has_word "hers" t

/-- Gender-vote contribution `(male, female)` of one adjacent segment
(`for j in (i - 1, i + 1): if ... segments[j].kind == "narration"`). -/
def neighbor_votes (osg : Option Segment) : Nat × Nat :=
  match osg with
  | some n =>
    if n.kind = "narration" then
      ((if male_search n.original_text then 1 else 0),
       (if female_search n.original_text then 1 else 0))
    else (0, 0)
  | none => (0, 0)

/-- `char_info[name]["count"] += 1` together with the gender-vote updates,
on the ordered-association-list embedding of the `char_info` dict
(entries are `(name, count, male_votes, female_votes)`). -/
def ci_bump (ci : List (String × Nat × Nat × Nat)) (name : String)
    (dm df : Nat) : List (String × Nat × Nat × Nat) :=
  ci.map (fun e => if e.1 = name then (e.1, e.2.1 + 1, e.2.2.1 + dm, e.2.2.2 + df) else e)

/-- One iteration of the `for i, seg in enumerate(segments)` loop of
`build_character_registry`. -/
def registry_step (segments : List Segment)
    (ci : List (String × Nat × Nat × Nat)) (i : Nat) :
    List (String × Nat × Nat × Nat) :=
  match segments.get? i with
  | none => ci
  | some seg =>
    if seg.kind ≠ "dialogue" ∨ seg.speaker = "unknown" ∨ seg.speaker = "narrator" then
      ci
    else
      let ci1 := if seg.speaker ∈ ci.map Prod.fst then ci
        else ci ++ [(seg.speaker, 0, 0, 0)]
      let p := neighbor_votes (if i = 0 then none else segments.get? (i - 1))
      let q := neighbor_votes (segments.get? (i + 1))
      ci_bump ci1 seg.speaker (p.1 + q.1) (p.2 + q.2)

/-- The fully built `char_info` dict (insertion-ordered). -/
def build_char_info (segments : List Segment) : List (String × Nat × Nat × Nat) :=
  (List.range segments.length).foldl (registry_step segments) []

/-- One entry of the `characters` list (`{"name": ..., "description": ...}`). -/
structure Character where
  name : String
  description : String
  deriving DecidableEq, Repr

/-- `build_character_registry` from `character_registry.py`. -/
def build_character_registry (segments : List Segment) : List Character :=
  ⟨"narrator", "the narrative voice"⟩ ::
    (build_char_info segments).map (fun e =>
      ⟨e.1,
        String.intercalate ", "
          ((if e.2.2.2 < e.2.2.1 then ["male"]
            else if e.2.2.1 < e.2.2.2 then ["female"] else []) ++
            [toString e.2.1 ++ " dialogue segment(s)"])⟩)

/-! ## Node 7 — AI Attribution (`nodes/ai_attribution.py`) -/

/-- `_BATCH_SIZE` in `ai_attribution.py`. -/
def AI_BATCH_SIZE : Nat := 20

/-- `_CONTEXT_WINDOW` in `ai_attribution.py`. -/
def CONTEXT_WINDOW : Nat := 3

/-- One query dict sent to the LLM (`{"segment_id", "dialogue_text",
"context"}`; context entries are `(id, kind, speaker, text[:200])`). -/
structure Query where
  segment_id : Nat
  dialogue_text : String
  context : List (Nat × String × String × String)

/-- Indices of still-unknown dialogue segments. -/
def unknown_indices (segments : List Segment) : List Nat :=
  (List.range segments.length).filter (fun i =>
    match segments.get? i with
    | some s => decide (s.kind = "dialogue" ∧ s.speaker = "unknown")
    | none => false)

/-- The context slice `segments[max(0, idx-3):min(len, idx+4)]`. -/
def mk_context (segments : List Segment) (idx : Nat) :
    List (Nat × String × String × String) :=
  ((segments.drop (idx - CONTEXT_WINDOW)).take
      (min segments.length (idx + CONTEXT_WINDOW + 1) - (idx - CONTEXT_WINDOW))).map
    (fun s => (s.id, s.kind, s.speaker, py_take s.original_text 200))

/-- The query built for one unknown index. -/
def mk_query (segments : List Segment) (idx : Nat) : Option Query :=
  (segments.get? idx).map
    (fun seg => ⟨seg.id, seg.original_text, mk_context segments idx⟩)

/-- `attr_map = {a["segment_id"]: a["speaker"] for a in attributions}`
followed by `attr_map.get(seg.id)` — the dict comprehension keeps the
LAST entry for a repeated id. -/
def attr_lookup (attrs : List (Nat × String)) (i : Nat) : Option String :=
  attrs.reverse.lookup i

/-- Apply one batch's attributions (`if speaker:` is non-empty-string
truthiness). -/
def ai_batch_apply (attrs : List (Nat × String)) (batch : List Nat)
    (segments : List Segment) : List Segment :=
  batch.foldl (fun segs idx =>
    match segs.get? idx with
    | none => segs
    | some seg =>
      match attr_lookup attrs seg.id with
      | some sp =>
        if sp ≠ "" then
          segs.set idx { seg with speaker := sp, attribution_source := "ai" }
        else segs
      | none => segs) segments

/-- The `range(0, len(unknown_indices), _BATCH_SIZE)` loop of
`resolve_ambiguous_speakers`, with fuel for structural recursion
(instantiated with the index-list length, an upper bound on the number
of batches); each batch's queries are built from the current segment
state, then the oracle's attributions are applied. -/
def ai_go (oracle : List String → List Query → List (Nat × String))
    (names : List String) : Nat → List Nat → List Segment → List Segment
  | 0, _, segs => segs
  | _ + 1, [], segs => segs
  | fuel + 1, i :: rest, segs =>
    let batch := i :: rest.take (AI_BATCH_SIZE - 1)
    let attrs := oracle names (batch.filterMap (mk_query segs))
    ai_go oracle names fuel (rest.drop (AI_BATCH_SIZE - 1))
      (ai_batch_apply attrs batch segs)

/-- `_COMMON` from `_extract_candidate_names`. -/
def COMMON_WORDS : List String :=
  ["The", "There", "Their", "They", "These", "This", "That", "Those",
   "Then", "Than", "When", "Where", "What", "Which", "While", "Who",
   "How", "Here", "His", "Her", "Its", "Our", "But", "And", "For",
   "Not", "All", "Can", "Has", "Had", "Was", "Were", "Are", "Did",
   "Does", "May", "Most", "Much", "Many", "Some", "Just", "Also",
   "From", "Into", "With", "After", "Before", "About", "Still",
   "Even", "Only", "Very", "Each", "Every", "Both", "Such",
   "Instead", "Mostly", "Sunburn", "Looking", "Glancing"]

/-- `[a-z]` test. -/
def isLowerAZ (c : Char) : Bool := decide ('a' ≤ c ∧ c ≤ 'z')

/-- `[A-Z]` test. -/
def isUpperAZ (c : Char) : Bool := decide ('A' ≤ c ∧ c ≤ 'Z')

/-- The character class `[a-z.,;!?’]` of the lookbehind in
`_extract_candidate_names` (`Char.ofNat 8217` is `’`, U+2019). -/
def isLookbehindChar (c : Char) : Bool :=
  isLowerAZ c || c = '.' || c = ',' || c = ';' || c = '!' || c = '?' ||
    c = Char.ofNat 8217

/-- `re.finditer(r"(?<=[a-z.,;!?’]\s)([A-Z][a-z]{2,})", text)` — the
matched words in scan order.  `p2`/`p1` are the two characters before the
current position (the lookbehind may inspect a previous match), matches
are non-overlapping and `[a-z]{2,}` is greedy; the fuel (instantiated
with the text length, each step consumes at least one character) makes
the recursion structural. -/
def scan_names : Nat → Option Char → Option Char → List Char → List String
  | 0, _, _, _ => []
  | _ + 1, _, _, [] => []
  | fuel + 1, p2, p1, c :: rest =>
    if (match p2 with | some a => isLookbehindChar a | none => false) &&
       (match p1 with | some b => isPySpace b | none => false) &&
       isUpperAZ c then
      let run := rest.takeWhile isLowerAZ
      if 2 ≤ run.length then
        String.mk (c :: run) ::
          scan_names fuel (run.get? (run.length - 2)) run.getLast?
            (rest.drop run.length)
      else scan_names fuel p1 (some c) rest
    else scan_names fuel p1 (some c) rest

/-- `Counter` update loop: ordered association list of `(word, count)`,
insertion-ordered by first occurrence. -/
def tally_go (acc : List (String × Nat)) : List String → List (String × Nat)
  | [] => acc
  | w :: rest =>
    if w ∈ acc.map Prod.fst then
      tally_go (acc.map (fun e => if e.1 = w then (e.1, e.2 + 1) else e)) rest
    else tally_go (acc ++ [(w, 1)]) rest

/-- Stable insert for descending count order (ties keep first-encounter
order, as `Counter.most_common` does). -/
def insert_by_count (e : String × Nat) : List (String × Nat) → List (String × Nat)
  | [] => [e]
  | x :: xs => if x.2 ≤ e.2 then e :: x :: xs else x :: insert_by_count e xs

/-- `Counter.most_common(10)`. -/
def most_common10 (l : List (String × Nat)) : List (String × Nat) :=
  (l.foldr insert_by_count []).take 10

/-- `_extract_candidate_names` from `ai_attribution.py`. -/
def extract_candidate_names (segments : List Segment) : List String :=
  let ws := segments.foldl (fun acc seg =>
    if seg.kind = "narration" then
      acc ++ (scan_names seg.original_text.data.length none none
          seg.original_text.data).filter (fun w => decide (¬ w ∈ COMMON_WORDS))
    else acc) []
  ((most_common10 (tally_go [] ws)).filter (fun e => decide (2 ≤ e.2))).map Prod.fst

/-- Python truthiness of the `last_speaker` variable (`None` and `""` are
falsy). -/
def opt_truthy : Option String → Bool
  | none => false
  | some sp => decide (sp ≠ "")

/-- The walk of `_fallback_last_speaker`, carrying `last_speaker`. -/
def fallback_go (last : Option String) : List Segment → List Segment
  | [] => []
  | seg :: rest =>
    if seg.kind = "dialogue" ∧ seg.speaker ≠ "unknown" ∧ seg.speaker ≠ "narrator" then
      seg :: fallback_go (some seg.speaker) rest
    else if seg.kind = "dialogue" ∧ seg.speaker = "unknown" ∧ opt_truthy last = true then
      { seg with speaker := last.getD "", attribution_source := "default" } ::
        fallback_go last rest
    else seg :: fallback_go last rest

/-- `_fallback_last_speaker` from `ai_attribution.py`. -/
def fallback_last_speaker (segments : List Segment) : List Segment :=
  fallback_go none segments

/-- `resolve_ambiguous_speakers` from `ai_attribution.py`: the LLM is
abstracted by `oracle`, mapping the character-name list and a batch's
query list to the returned `attributions` (`[]` on failure).  With no
unknowns the function returns early, skipping the fallback. -/
def resolve_ambiguous_speakers
    (oracle : List String → List Query → List (Nat × String))
    (segments : List Segment) (characters : List Character) : List Segment :=
  let unknowns := unknown_indices segments
  if unknowns.isEmpty then segments
  else
    let names0 := (characters.filter (fun c => decide (c.name ≠ "narrator"))).map (·.name)
    let names := if names0.isEmpty then extract_candidate_names segments else names0
    fallback_last_speaker (ai_go oracle names unknowns.length unknowns segments)

/-! ## Pipeline orchestrator (`pipeline.py`) -/

/-- `NodeMetrics` from `models.py` (`segments_affected` is a Python `int`
difference, hence `Int`). -/
structure NodeMetrics where
  node_name : String
  node_type : String
  duration_ms : Nat
  segments_processed : Nat
  segments_affected : Int
  deriving DecidableEq, Repr

/-- JSON-like values appearing in the report dict. -/
inductive RVal where
  | num : Int → RVal
  | str : String → RVal
  | arr : List (List (String × RVal)) → RVal

/-- One entry of the per-node list in `_build_report`. -/
def node_entry (m : NodeMetrics) : List (String × RVal) :=
  [("node", RVal.str m.node_name),
   ("type", RVal.str m.node_type),
   ("duration_ms", RVal.num (m.duration_ms : Int)),
   ("segments_processed", RVal.num (m.segments_processed : Int)),
   ("segments_affected", RVal.num m.segments_affected)]

/-- `_build_report` from `pipeline.py` (dicts as ordered association
lists). -/
def build_report (metrics : List NodeMetrics) : List (String × RVal) :=
  [("total_duration_ms",
      RVal.num ((metrics.map (fun x => x.duration_ms)).sum : Int)),
   ("programmatic_duration_ms",
      RVal.num (((metrics.filter (fun x => decide (x.node_type = "programmatic"))).map
        (fun x => x.duration_ms)).sum : Int)),
   ("ai_duration_ms",
      RVal.num (((metrics.filter (fun x => decide (x.node_type = "ai"))).map
        (fun x => x.duration_ms)).sum : Int)),
   ("nodes", RVal.arr (metrics.map node_entry))]

/-- Association-list lookup on report dicts. -/
def rlookup : List (String × RVal) → String → Option RVal
  | [], _ => none
  | e :: rest, k => if e.1 = k then some e.2 else rlookup rest k

/-- Python `round(x, 2)` modelled over `ℚ`: round-half-to-even on
`100 * x` (the binary-float representation error of the actual Python
floats is not modelled; no theorem below inspects rounded intensities). -/
def round_half_even (q : ℚ) : ℤ :=
  if q - ⌊q⌋ < 1/2 then ⌊q⌋
  else if (1 : ℚ)/2 < q - ⌊q⌋ then ⌊q⌋ + 1
  else if ⌊q⌋ % 2 = 0 then ⌊q⌋ else ⌊q⌋ + 1

/-- `round(s.intensity, 2)`. -/
def round2 (q : ℚ) : ℚ := (round_half_even (q * 100) : ℚ) / 100

/-- One output segment dict of `run_pipeline`. -/
structure OutSegment where
  id : Nat
  speaker : String
  original_text : String
  emotion : String
  intensity : ℚ
  pause_before_ms : Nat
  deriving DecidableEq, Repr

/-- `PipelineResult` from `models.py`. -/
structure PipelineResult where
  title : String
  characters : List Character
  segments : List OutSegment
  report : List (String × RVal)

/-- `_count_unknown` from `pipeline.py`. -/
def count_unknown (segments : List Segment) : Nat :=
  (segments.filter (fun s => decide (s.kind = "dialogue" ∧ s.speaker = "unknown"))).length

/-- `run_pipeline` from `pipeline.py`.  The stage-2 regex matchers, the
two LLMs and the wall clock are parameters: `durations k` is the measured
duration in ms of node `k` (the `time.monotonic_ns` differences). -/
def run_pipeline (m : Matchers)
    (aiOracle : List String → List Query → List (Nat × String))
    (emOracle : List (Nat × String × String) → Nat → Option (String × ℚ))
    (durations : Nat → Nat) (text title : String) : PipelineResult :=
  let segs1 := split_segments text
  let m1 : NodeMetrics :=
    ⟨"segment_splitter", "programmatic", durations 1, segs1.length, (segs1.length : Int)⟩
  let ub2 := count_unknown segs1
  let segs2 := attribute_explicit m segs1
  let m2 : NodeMetrics :=
    ⟨"explicit_attribution", "programmatic", durations 2, segs2.length,
      (ub2 : Int) - (count_unknown segs2 : Int)⟩
  let ub3 := count_unknown segs2
  let segs3 := apply_turn_taking segs2
  let m3 : NodeMetrics :=
    ⟨"turn_taking", "programmatic", durations 3, segs3.length,
      (ub3 : Int) - (count_unknown segs3 : Int)⟩
  let characters := build_character_registry segs3
  let m4 : NodeMetrics :=
    ⟨"character_registry", "programmatic", durations 4, segs3.length,
      (characters.length : Int)⟩
  let segs5 := assign_pauses segs3
  let m5 : NodeMetrics :=
    ⟨"pause_timing", "programmatic", durations 5, segs5.length, (segs5.length : Int)⟩
  let v := validate_completeness segs5 text
  let m6 : NodeMetrics :=
    ⟨"validation", "programmatic", durations 6, segs5.length,
      if v.1 then 0 else (v.2.length : Int)⟩
  let ub7 := count_unknown segs5
  let segs7 := resolve_ambiguous_speakers aiOracle segs5 characters
  let m7 : NodeMetrics :=
    ⟨"ai_attribution", "ai", durations 7, ub7,
      (ub7 : Int) - (count_unknown segs7 : Int)⟩
  let segs8 := classify_emotions emOracle segs7
  let m8 : NodeMetrics :=
    ⟨"emotion_classifier", "ai", durations 8, segs8.length,
      ((segs8.filter (fun s => decide (s.emotion ≠ "neutral"))).length : Int)⟩
  { title := title,
    characters := characters,
    segments := segs8.map (fun s =>
      ⟨s.id, if s.kind = "dialogue" then s.speaker else "narrator",
        s.original_text, s.emotion, round2 s.intensity, s.pause_before_ms⟩),
    report := build_report [m1, m2, m3, m4, m5, m6, m7, m8] }

/-- Specification-side registry contents: the speakers of dialogue
segments other than `unknown`/`narrator`, in first-occurrence order
(`seen` holds the names already emitted). -/
def registry_names (seen : List String) : List Segment → List String
  | [] => []
  | s :: rest =>
    if s.kind = "dialogue" ∧ s.speaker ≠ "unknown" ∧ s.speaker ≠ "narrator" ∧
        ¬ s.speaker ∈ seen then
      s.speaker :: registry_names (seen ++ [s.speaker]) rest
    else registry_names seen rest

/-- Concrete pipeline run for the registry claim: two one-line dialogue
paragraphs, no explicit attributions, and an AI oracle that names a
speaker the registry has never seen. -/
def c4res : PipelineResult :=
  run_pipeline mNone (fun _ _ => [(1, "Zed"), (2, "Zed")]) (fun _ _ => none)
    (fun _ => 0) "\"Hi.\"\n\"Yo.\"" "t"

/-- Concrete pipeline run for the report claim (node `k` takes `k` ms). -/
def c9res : PipelineResult :=
  run_pipeline mNone (fun _ _ => []) (fun _ _ => none) (fun k => k) "" "t"

/-- A narration segment with the default `(neutral, 1/2)` emotion state. -/
def c3nseg : Segment :=
  { id := 1, kind := "narration", original_text := "The rain fell.",
    speaker := "narrator" }

/-- An LLM response that names the narration segment's id with an
allowed emotion. -/
def c3oracle : List (Nat × String × String) → Nat → Option (String × ℚ) :=
  fun _ i => if i = 1 then some ("sad", 1) else none

/-! ## Theorems -/

theorem alternate_speakers_append (l1 l2 : List Segment) :
    ∀ conv streak, alternate_speakers conv streak (l1 ++ l2) =
      alternate_speakers conv streak l1 ++
        alternate_speakers (alt_state conv streak l1).1 (alt_state conv streak l1).2 l2 := by
  induction l1 with
  | nil => intro conv streak; simp [alternate_speakers, alt_state]
  | cons seg rest ih =>
    intro conv streak
    simp only [List.cons_append, alternate_speakers, alt_state]
    by_cases hk : seg.kind = "narration"
    · simp [hk, ih]
    · by_cases hd : seg.kind = "dialogue"
      · by_cases hs : seg.speaker ≠ "unknown" ∧ seg.attribution_source ≠ "none"
        · simp [hk, hd, hs, ih]
        · rcases conv with _ | ⟨a, _ | ⟨b, t⟩⟩ <;> simp [hk, hd, hs, ih]
      · simp [hk, hd, ih]

theorem alt_state_inv (l : List Segment) :
    ∀ conv streak, "unknown" ∉ conv → conv.Chain' (· ≠ ·) →
      "unknown" ∉ (alt_state conv streak l).1 ∧
        (alt_state conv streak l).1.Chain' (· ≠ ·) := by
  induction l with
  | nil => intro conv streak h1 h2; simpa [alt_state] using ⟨h1, h2⟩
  | cons seg rest ih =>
    intro conv streak h1 h2
    by_cases hk : seg.kind = "narration"
    · by_cases hr : NARRATION_GAP_RESET ≤ streak + 1
      · have := ih [] (streak + 1) (by simp) (by simp)
        simpa [alt_state, hk, hr] using this
      · have := ih conv (streak + 1) h1 h2
        simpa [alt_state, hk, hr] using this
    · by_cases hd : seg.kind = "dialogue"
      · by_cases hs : seg.speaker ≠ "unknown" ∧ seg.attribution_source ≠ "none"
        · by_cases hh : conv.head? = some seg.speaker
          · have := ih conv 0 h1 h2
            simpa [alt_state, hk, hd, hs, hh] using this
          · have h1' : "unknown" ∉ seg.speaker :: conv := by
              intro hmem
              rcases List.mem_cons.mp hmem with h | h
              · exact hs.1 h.symm
              · exact h1 h
            have h2' : (seg.speaker :: conv).Chain' (· ≠ ·) := by
              refine List.chain'_cons'.mpr ⟨?_, h2⟩
              intro y hy heq
              rw [Option.mem_def] at hy
              exact hh (by rw [hy, heq])
            have := ih (seg.speaker :: conv) 0 h1' h2'
            simpa [alt_state, hk, hd, hs, hh] using this
        · rcases conv with _ | ⟨a, _ | ⟨b, t⟩⟩
          · have := ih [] 0 (by simp) (by simp)
            simpa [alt_state, hk, hd, hs] using this
          · have := ih [a] 0 h1 h2
            simpa [alt_state, hk, hd, hs] using this
          · have hab : a ≠ b := (List.chain'_cons.mp h2).1
            have h1' : "unknown" ∉ b :: a :: b :: t := by
              intro hmem
              apply h1
              simp only [List.mem_cons] at hmem ⊢
              tauto
            have h2' : (b :: a :: b :: t).Chain' (· ≠ ·) :=
              List.chain'_cons.mpr ⟨hab.symm, h2⟩
            have := ih (b :: a :: b :: t) 0 h1' h2'
            simpa [alt_state, hk, hd, hs] using this
      · have := ih conv 0 h1 h2
        simpa [alt_state, hk, hd] using this

end AudiobookPipeline

namespace AudiobookPipeline

/-- C1: In Stage 3 Pass B (`_alternate_speakers`), a dialogue segment with
`speaker="unknown"` reached while the conversation history holds at least two
recent speakers (the top two being distinct by construction) is assigned the
speaker that is not the most recent one, with
`attribution_source="turn_taking"`; with fewer than two recent speakers it is
left unchanged (still unknown).  In particular, five consecutive dialogue
segments whose first two are attributed Anna then Ben end up
Anna, Ben, Anna, Ben, Anna, the last three with
`attribution_source="turn_taking"`. -/
theorem C1_alternation :
    (∀ pre (seg : Segment) post a b rest,
      seg.kind = "dialogue" → seg.speaker = "unknown" →
      (alt_state [] 0 pre).1 = a :: b :: rest →
      b ≠ a ∧
      alternate_speakers [] 0 (pre ++ seg :: post) =
        alternate_speakers [] 0 pre ++
          { seg with speaker := b, attribution_source := "turn_taking" } ::
            alternate_speakers (b :: a :: b :: rest) 0 post) ∧
    (∀ pre (seg : Segment) post,
      seg.kind = "dialogue" → seg.speaker = "unknown" →
      (alt_state [] 0 pre).1.length < 2 →
      alternate_speakers [] 0 (pre ++ seg :: post) =
        alternate_speakers [] 0 pre ++
          seg :: alternate_speakers (alt_state [] 0 pre).1 0 post) ∧
    (∀ s1 s2 s3 s4 s5 : Segment,
      (∀ s ∈ [s1, s2, s3, s4, s5], s.kind = "dialogue") →
      s1.speaker = "Anna" → s1.attribution_source = "explicit" →
      s2.speaker = "Ben" → s2.attribution_source = "explicit" →
      s3.speaker = "unknown" → s4.speaker = "unknown" → s5.speaker = "unknown" →
      (alternate_speakers [] 0 [s1, s2, s3, s4, s5]).map
          (fun s => (s.speaker, s.attribution_source)) =
        [("Anna", "explicit"), ("Ben", "explicit"), ("Anna", "turn_taking"),
          ("Ben", "turn_taking"), ("Anna", "turn_taking")]) := by
  refine ⟨?_, ?_, ?_⟩
  · intro pre seg post a b rest hk hsp hstate
    have hinv := alt_state_inv pre [] 0 (by simp) (by simp)
    rw [hstate] at hinv
    have hab : a ≠ b := (List.chain'_cons.mp hinv.2).1
    refine ⟨hab.symm, ?_⟩
    rw [alternate_speakers_append, hstate]
    simp [alternate_speakers, hk, hsp]
  · intro pre seg post hk hsp hlen
    rw [alternate_speakers_append]
    rcases hstate : (alt_state [] 0 pre).1 with _ | ⟨a, _ | ⟨b, t⟩⟩
    · simp [alternate_speakers, hk, hsp]
    · simp [alternate_speakers, hk, hsp]
    · rw [hstate] at hlen
      simp only [List.length_cons] at hlen
      omega
  · intro s1 s2 s3 s4 s5 hall h1s h1a h2s h2a h3 h4 h5
    have k1 := hall s1 (by simp)
    have k2 := hall s2 (by simp)
    have k3 := hall s3 (by simp)
    have k4 := hall s4 (by simp)
    have k5 := hall s5 (by simp)
    simp [alternate_speakers, k1, k2, k3, k4, k5, h1s, h1a, h2s, h2a, h3, h4, h5]

/-- Witness for `C1_alternation`: all three parts applied at concrete
segment lists. -/
theorem C1_alternation_witness :
    (alternate_speakers [] 0 (c1pre ++ wSeg 3 "dialogue" "unknown" "none" :: []) =
      alternate_speakers [] 0 c1pre ++
        { wSeg 3 "dialogue" "unknown" "none" with
            speaker := "Anna", attribution_source := "turn_taking" } ::
          alternate_speakers ["Anna", "Ben", "Anna"] 0 []) ∧
    (alternate_speakers [] 0 ([] ++ wSeg 1 "dialogue" "unknown" "none" :: []) =
      alternate_speakers [] 0 [] ++
        wSeg 1 "dialogue" "unknown" "none" :: alternate_speakers (alt_state [] 0 []).1 0 []) ∧
    (alternate_speakers [] 0
        [wSeg 1 "dialogue" "Anna" "explicit", wSeg 2 "dialogue" "Ben" "explicit",
          wSeg 3 "dialogue" "unknown" "none", wSeg 4 "dialogue" "unknown" "none",
          wSeg 5 "dialogue" "unknown" "none"]).map
        (fun s => (s.speaker, s.attribution_source)) =
      [("Anna", "explicit"), ("Ben", "explicit"), ("Anna", "turn_taking"),
        ("Ben", "turn_taking"), ("Anna", "turn_taking")] := by
  refine ⟨?_, ?_, ?_⟩
  · exact (C1_alternation.1 c1pre (wSeg 3 "dialogue" "unknown" "none") [] "Ben" "Anna" []
      rfl rfl (by decide)).2
  · exact C1_alternation.2.1 [] (wSeg 1 "dialogue" "unknown" "none") [] rfl rfl (by decide)
  · exact C1_alternation.2.2 _ _ _ _ _ (by decide) rfl rfl rfl rfl rfl rfl rfl

end AudiobookPipeline

namespace AudiobookPipeline

theorem band_split {a b : Bool} (h : (a && b) = true) : a = true ∧ b = true := by
  simpa using h

theorem collapse_go_true_head (l : List Char) :
    ∀ d, (collapse_go true l).head? = some d → isPySpace d = false := by
  induction l with
  | nil => intro d h; simp [collapse_go] at h
  | cons c rest ih =>
    intro d h
    by_cases sc : isPySpace c
    · exact ih d (by simpa [collapse_go, sc] using h)
    · simp [collapse_go, sc] at h
      simpa [← h] using sc

theorem wk_ok_collapse_go (l : List Char) :
    ∀ prev, wk_ok (collapse_go prev l) = true := by
  induction l with
  | nil => intro prev; simp [collapse_go, wk_ok]
  | cons c rest ih =>
    intro prev
    by_cases sc : isPySpace c
    · by_cases hp : prev
      · simpa [collapse_go, sc, hp] using ih true
      · have hhead : ∀ d, (collapse_go true rest).head? = some d → isPySpace d = false :=
          collapse_go_true_head rest
        have : (match collapse_go true rest with
            | [] => true | d :: _ => !isPySpace d) = true := by
          cases hc : collapse_go true rest with
          | nil => simp
          | cons d t => simpa using hhead d (by simp [hc])
        simp [collapse_go, sc, hp, wk_ok, ih true, this]
    · simp [collapse_go, sc, wk_ok, ih false]

theorem wk_ok_tail {c : Char} {rest : List Char} (h : wk_ok (c :: rest) = true) :
    wk_ok rest = true := by
  simp only [wk_ok, Bool.and_eq_true] at h
  exact h.2

theorem wk_ok_dropWhile (l : List Char) (h : wk_ok l = true) :
    wk_ok (l.dropWhile isPySpace) = true := by
  induction l with
  | nil => simpa using h
  | cons c rest ih =>
    by_cases sc : isPySpace c
    · simpa [List.dropWhile, sc] using ih (wk_ok_tail h)
    · simpa [List.dropWhile, sc] using h

theorem head_dropWhile_not_space (l : List Char) :
    ∀ d, (l.dropWhile isPySpace).head? = some d → isPySpace d = false := by
  induction l with
  | nil => intro d h; simp at h
  | cons c rest ih =>
    intro d h
    by_cases sc : isPySpace c
    · exact ih d (by simpa [List.dropWhile, sc] using h)
    · simp [List.dropWhile, sc] at h
      simpa [← h] using sc

theorem rstrip_sp_props (l : List Char) : wk_ok l = true →
    no_bad_space (rstrip_sp l) = true ∧
      (rstrip_sp l = [] ∨ (rstrip_sp l).head? = l.head?) := by
  induction l with
  | nil => intro _; exact ⟨by simp [rstrip_sp, no_bad_space], Or.inl rfl⟩
  | cons c rest ih =>
    intro h
    simp only [wk_ok, Bool.and_eq_true, Bool.or_eq_true, Bool.not_eq_true'] at h
    obtain ⟨hcond, hwrest⟩ := h
    obtain ⟨hnbs, hhead⟩ := ih hwrest
    by_cases hif : ((rstrip_sp rest).isEmpty && isPySpace c) = true
    · constructor
      · simp [rstrip_sp, hif, no_bad_space]
      · left
        simp [rstrip_sp, hif]
    · have hres : rstrip_sp (c :: rest) = c :: rstrip_sp rest := by
        simp only [rstrip_sp]
        rw [if_neg hif]
      by_cases sc : isPySpace c = true
      · have hne : (rstrip_sp rest).isEmpty = false := by
          cases hemp : (rstrip_sp rest).isEmpty
          · rfl
          · exact absurd (by simp [hemp, sc]) hif
        cases he : rstrip_sp rest with
        | nil => rw [he] at hne; simp at hne
        | cons e t =>
          have hh : (rstrip_sp rest).head? = rest.head? := by
            rcases hhead with h1 | h1
            · rw [h1] at he; cases he
            · exact h1
          rcases hcond with h1 | ⟨hcsp, hmatch⟩
          · rw [sc] at h1; cases h1
          cases hr : rest with
          | nil => rw [hr] at he; simp [rstrip_sp] at he
          | cons d r2 =>
            subst hr
            have hed : e = d := by
              rw [he] at hh
              simpa using hh
            have hcd : (!isPySpace d) = true := by
              simpa using hmatch
            refine ⟨?_, Or.inr (by simp [hres])⟩
            rw [hres]
            simp only [no_bad_space, Bool.and_eq_true]
            refine ⟨?_, hnbs⟩
            rw [he]
            simp [hcsp, hed, hcd]
      · refine ⟨?_, Or.inr (by simp [hres])⟩
        rw [hres]
        simp only [no_bad_space, Bool.and_eq_true]
        refine ⟨?_, hnbs⟩
        simp [sc]


theorem words_go_ne_nil (l : List Char) :
    ∀ acc, acc ≠ [] → words_go acc l ≠ [] := by
  induction l with
  | nil =>
    intro acc hacc
    simp [words_go, hacc]
  | cons c rest ih =>
    intro acc hacc
    by_cases sc : isPySpace c
    · simp [words_go, sc, hacc]
    · simpa [words_go, sc] using ih (c :: acc) (by simp)

theorem join_words_cons {w : List Char} {ws : List (List Char)} (h : ws ≠ []) :
    join_words (w :: ws) = w ++ ' ' :: join_words ws := by
  cases ws with
  | nil => exact absurd rfl h
  | cons e es => rfl

theorem join_words_go (l : List Char) :
    ∀ acc, no_bad_space l = true →
      (∀ c, l.head? = some c → isPySpace c = true → acc ≠ []) →
      join_words (words_go acc l) = acc.reverse ++ l := by
  induction l with
  | nil =>
    intro acc _ _
    by_cases hacc : acc = []
    · simp [words_go, hacc, join_words]
    · simp [words_go, hacc, join_words]
  | cons c rest ih =>
    intro acc hnbs hacc
    simp only [no_bad_space, Bool.and_eq_true, Bool.or_eq_true, Bool.not_eq_true'] at hnbs
    obtain ⟨hcond, hnrest⟩ := hnbs
    by_cases sc : isPySpace c = true
    · have hane : acc ≠ [] := hacc c rfl sc
      rcases hcond with h1 | ⟨hcsp, hmatch⟩
      · rw [sc] at h1; cases h1
      cases hr : rest with
      | nil =>
        rw [hr] at hmatch
        simp at hmatch
      | cons d r2 =>
        subst hr
        have hcd : (!isPySpace d) = true := by
          simpa using hmatch
        have hwne : words_go ([] : List Char) (d :: r2) ≠ [] := by
          have : words_go ([d] : List Char) r2 ≠ [] := words_go_ne_nil r2 [d] (by simp)
          simpa [words_go, show isPySpace d = false by simpa using hcd] using this
        have hstep : words_go acc (c :: d :: r2) = acc.reverse :: words_go [] (d :: r2) := by
          simp [words_go, sc, hane]
        have hhead : ∀ e, (d :: r2 : List Char).head? = some e → isPySpace e = true →
            ([] : List Char) ≠ [] := by
          intro e he hsp
          have hde : d = e := by simpa using he
          rw [hde, hsp] at hcd
          simp at hcd
        rw [hstep, join_words_cons hwne, ih [] hnrest hhead]
        have hc : c = ' ' := of_decide_eq_true hcsp
        simp [hc]
    · have hstep : words_go acc (c :: rest) = words_go (c :: acc) rest := by
        simp [words_go, sc]
      rw [hstep, ih (c :: acc) hnrest (by intro e _ _; simp)]
      simp


theorem normalise_normal_form (t : String) :
    no_bad_space (normalise t).data = true ∧
      (∀ c, (normalise t).data.head? = some c → isPySpace c = false) := by
  have hwk : wk_ok (collapse_go false
      ((t.data.filter (fun c => !(c = '“' || c = '”' || c = '"'))).map
        (fun c => if c = '\n' then ' ' else c))) = true :=
    wk_ok_collapse_go _ false
  have hwk2 := wk_ok_dropWhile _ hwk
  obtain ⟨hnbs, hhead⟩ := rstrip_sp_props _ hwk2
  refine ⟨hnbs, ?_⟩
  intro c hc
  rcases hhead with h1 | h1
  · rw [show (normalise t).data = pyStripChars _ from rfl, pyStripChars, h1] at hc
    simp at hc
  · rw [show (normalise t).data = pyStripChars _ from rfl, pyStripChars, h1] at hc
    exact head_dropWhile_not_space _ c hc

theorem join_pyWords_normalise (t : String) :
    join_words (words_go [] (normalise t).data) = (normalise t).data := by
  obtain ⟨hnbs, hhead⟩ := normalise_normal_form t
  have := join_words_go (normalise t).data [] hnbs
    (by intro c hc hsp; rw [hhead c hc] at hsp; cases hsp)
  simpa using this

theorem pyWords_injective_on_normalise {a b : String}
    (h : pyWords (normalise a) = pyWords (normalise b)) :
    normalise a = normalise b := by
  have hmk : Function.Injective (fun l : List Char => (⟨l⟩ : String)) := by
    intro x y hxy
    cases hxy
    rfl
  have hw : words_go [] (normalise a).data = words_go [] (normalise b).data := by
    have := List.map_injective_iff.mpr hmk h
    simpa [pyWords] using this
  have hj := congrArg join_words hw
  rw [join_pyWords_normalise, join_pyWords_normalise] at hj
  cases ha : normalise a with
  | mk da =>
    cases hb : normalise b with
    | mk db =>
      rw [ha, hb] at hj
      exact congrArg String.mk hj

theorem first_mismatch_or_length (a : List String) :
    ∀ b, a ≠ b → first_mismatch_idx a b ≠ none ∨ a.length ≠ b.length := by
  induction a with
  | nil =>
    intro b hne
    cases b with
    | nil => exact absurd rfl hne
    | cons y ys => right; simp
  | cons x xs ih =>
    intro b hne
    cases b with
    | nil => right; simp
    | cons y ys =>
      by_cases hxy : x = y
      · subst hxy
        have hne2 : xs ≠ ys := fun h => hne (by rw [h])
        rcases ih ys hne2 with h1 | h1
        · left
          simp only [first_mismatch_idx, if_neg (by simp : ¬ x ≠ x)]
          intro h2
          exact h1 (by simpa using h2)
        · right; simpa using h1
      · left
        simp [first_mismatch_idx, hxy]

end AudiobookPipeline

namespace AudiobookPipeline

theorem validate_differ (segments : List Segment) (text : String)
    (hne : segments ≠ [])
    (heq : normalise text ≠ normalise (reconstruct segments)) :
    (validate_completeness segments text).1 = false ∧
      (validate_completeness segments text).2 ≠ [] := by
  have hemp : segments.isEmpty = false := by
    cases segments with
    | nil => exact absurd rfl hne
    | cons s ss => rfl
  have hw : pyWords (normalise text) ≠ pyWords (normalise (reconstruct segments)) :=
    fun h => heq (pyWords_injective_on_normalise h)
  rcases first_mismatch_or_length _ _ hw with hm | hl
  · cases hfm : first_mismatch_idx (pyWords (normalise text))
        (pyWords (normalise (reconstruct segments))) with
    | none => exact absurd hfm hm
    | some j =>
      constructor <;>
        simp [validate_completeness, hemp, heq, hfm, List.append_eq_nil]
  · constructor <;>
      simp [validate_completeness, hemp, heq, hl, List.append_eq_nil]

/-- C2 (amended): for every NON-EMPTY segment list, validation passes with
an empty issue list exactly when the normalised original text equals the
normalised space-joined segment texts in id order; when they differ it
returns `passed = False` together with at least one issue.  The embedded
function is total, reflecting that the Python function always returns
rather than raising. -/
theorem C2_validation :
    ∀ segments text, segments ≠ [] →
      (((validate_completeness segments text).1 = true) ↔
        normalise text = normalise (reconstruct segments)) ∧
      (((validate_completeness segments text).2 = []) ↔
        normalise text = normalise (reconstruct segments)) := by
  intro segments text hne
  have hemp : segments.isEmpty = false := by
    cases segments with
    | nil => exact absurd rfl hne
    | cons s ss => rfl
  by_cases heq : normalise text = normalise (reconstruct segments)
  · constructor <;> simp [validate_completeness, hemp, heq]
  · have hd := validate_differ segments text hne heq
    constructor
    · rw [hd.1]
      simp [heq]
    · constructor
      · intro h2
        exact absurd h2 hd.2
      · intro h
        exact absurd h heq

/-- Witness for `C2_validation` at a concrete one-segment list. -/
theorem C2_validation_witness :
    (((validate_completeness [wSeg 1 "dialogue" "x" "none"] "t").1 = true) ↔
      normalise "t" = normalise (reconstruct [wSeg 1 "dialogue" "x" "none"])) ∧
    (((validate_completeness [wSeg 1 "dialogue" "x" "none"] "t").2 = []) ↔
      normalise "t" = normalise (reconstruct [wSeg 1 "dialogue" "x" "none"])) :=
  C2_validation [wSeg 1 "dialogue" "x" "none"] "t" (by decide)

/-- C2 counterexample: for the empty segment list and empty original text
the two normalisations agree (both empty), yet `validate_completeness`
returns `passed = False` with one issue — so "passes iff the
normalisations agree" fails for the empty segment list. -/
theorem C2_counterexample :
    normalise "" = normalise (reconstruct []) ∧
    validate_completeness [] "" = (false, ["No segments produced"]) := ⟨by decide, rfl⟩

/-- C10: `validate_completeness` with an empty segment list returns
`(False, ["No segments produced"])` for every original text; in particular
for the empty input text the two normalised strings agree (both empty) yet
validation still reports failure with exactly one issue. -/
theorem C10_empty_segments :
    (∀ text, validate_completeness [] text = (false, ["No segments produced"])) ∧
    normalise (reconstruct []) = normalise "" :=
  ⟨fun _ => rfl, by decide⟩

end AudiobookPipeline

namespace AudiobookPipeline

theorem pause_rule_eq_claimed (prev seg : Segment) :
    pause_rule prev seg =
      claimed_pause prev.kind prev.paragraph_index seg.kind seg.paragraph_index := rfl

theorem assign_pauses_go_spec (rest : List Segment) : ∀ prev,
    (assign_pauses_go prev rest).map (·.pause_before_ms) =
      ((prev :: rest).zip rest).map
        (fun p => claimed_pause p.1.kind p.1.paragraph_index p.2.kind p.2.paragraph_index) := by
  induction rest with
  | nil => intro prev; rfl
  | cons seg rest2 ih =>
    intro prev
    simp only [assign_pauses_go, List.map_cons, List.zip_cons_cons]
    rw [ih]
    cases rest2 with
    | nil => simp [pause_rule_eq_claimed]
    | cons s2 r3 => simp [pause_rule_eq_claimed, claimed_pause]

/-- C7: `assign_pauses` gives the first segment pause 0 and every later
segment the first matching rule of the claimed table, computed from
`para_gap = paragraph_index_cur - paragraph_index_prev` and the two kinds:
gap > 1 and not narration→narration ⇒ 1000; gap ≥ 1 ⇒ 500;
narration→dialogue ⇒ 350; dialogue→narration ⇒ 300; dialogue→dialogue ⇒
250; otherwise 500. -/
theorem C7_pause_rules :
    ∀ segments : List Segment,
      (assign_pauses segments).map (·.pause_before_ms) =
        match segments with
        | [] => []
        | _ :: _ =>
          0 :: ((segments.zip segments.tail).map
            (fun p => claimed_pause p.1.kind p.1.paragraph_index p.2.kind p.2.paragraph_index)) := by
  intro segments
  cases segments with
  | nil => rfl
  | cons s rest =>
    simp only [assign_pauses, List.map_cons, List.tail_cons]
    rw [assign_pauses_go_spec]
    cases rest with
    | nil => simp [PAUSE_FIRST]
    | cons s2 r3 => simp [PAUSE_FIRST, claimed_pause]

end AudiobookPipeline

namespace AudiobookPipeline

theorem alternate_speakers_idem (l : List Segment) :
    ∀ conv streak, "unknown" ∉ conv → conv.Chain' (· ≠ ·) →
      alternate_speakers conv streak (alternate_speakers conv streak l) =
        alternate_speakers conv streak l := by
  induction l with
  | nil => intro conv streak _ _; rfl
  | cons seg rest ih =>
    intro conv streak h1 h2
    by_cases hk : seg.kind = "narration"
    · by_cases hr : NARRATION_GAP_RESET ≤ streak + 1
      · have hrec := ih [] (streak + 1) (by simp) (by simp)
        simp [alternate_speakers, hk, hr, hrec]
      · have hrec := ih conv (streak + 1) h1 h2
        simp [alternate_speakers, hk, hr, hrec]
    · by_cases hd : seg.kind = "dialogue"
      · by_cases hs : seg.speaker ≠ "unknown" ∧ seg.attribution_source ≠ "none"
        · by_cases hh : conv.head? = some seg.speaker
          · have hrec := ih conv 0 h1 h2
            simp [alternate_speakers, hk, hd, hs, hh, hrec]
          · have h1' : "unknown" ∉ seg.speaker :: conv := by
              intro hmem
              rcases List.mem_cons.mp hmem with h | h
              · exact hs.1 h.symm
              · exact h1 h
            have h2' : (seg.speaker :: conv).Chain' (· ≠ ·) := by
              refine List.chain'_cons'.mpr ⟨?_, h2⟩
              intro y hy heq
              rw [Option.mem_def] at hy
              exact hh (by rw [hy, heq])
            have hrec := ih (seg.speaker :: conv) 0 h1' h2'
            simp [alternate_speakers, hk, hd, hs, hh, hrec]
        · rcases conv with _ | ⟨a, _ | ⟨b, t⟩⟩
          · have hrec := ih [] 0 (by simp) (by simp)
            simp [alternate_speakers, hk, hd, hs, hrec]
          · have hrec := ih [a] 0 h1 h2
            simp [alternate_speakers, hk, hd, hs, hrec]
          · have hab : a ≠ b := (List.chain'_cons.mp h2).1
            have hbu : b ≠ "unknown" := by
              intro h
              exact h1 (by simp [← h])
            have h1' : "unknown" ∉ b :: a :: b :: t := by
              intro hmem
              apply h1
              simp only [List.mem_cons] at hmem ⊢
              tauto
            have h2' : (b :: a :: b :: t).Chain' (· ≠ ·) :=
              List.chain'_cons.mpr ⟨hab.symm, h2⟩
            have hrec := ih (b :: a :: b :: t) 0 h1' h2'
            simp [alternate_speakers, hk, hd, hs, hab, hbu, hrec]
      · have hrec := ih conv 0 h1 h2
        simp [alternate_speakers, hk, hd, hrec]

end AudiobookPipeline

namespace AudiobookPipeline

theorem map_with_index_get (f : Nat → Segment → Segment) (l : List Segment) :
    ∀ k i, (map_with_index f k l).get? i = (l.get? i).map (fun s => f (k + i) s) := by
  induction l with
  | nil => intro k i; simp [map_with_index]
  | cons s rest ih =>
    intro k i
    cases i with
    | zero => simp [map_with_index]
    | succ n =>
      simp only [map_with_index, List.get?_cons_succ]
      rw [ih (k + 1) n]
      have : k + 1 + n = k + (n + 1) := by omega
      rw [this]

theorem step_preserves (m : Matchers) (l : List Segment) (i : Nat) (s : Segment) :
    (attribute_explicit_step m l i s).kind = s.kind ∧
      (attribute_explicit_step m l i s).original_text = s.original_text := by
  unfold attribute_explicit_step
  by_cases h0 : s.kind ≠ "dialogue" ∨ s.speaker ≠ "unknown"
  · simp [h0]
  · simp only [if_neg h0]
    by_cases hemp : context_parts_at l i = []
    · simp [hemp]
    · simp only [if_neg hemp]
      cases m.try_name_a (String.intercalate " " (context_parts_at l i)) with
      | some name => exact ⟨rfl, rfl⟩
      | none =>
        cases m.try_name_b (String.intercalate " " (context_parts_at l i)) with
        | some name => exact ⟨rfl, rfl⟩
        | none =>
          cases m.try_pronoun (String.intercalate " " (context_parts_at l i)) with
          | some p => exact ⟨rfl, rfl⟩
          | none => exact ⟨rfl, rfl⟩

theorem narration_text_at_congr {l1 l2 : List Segment}
    (h : ∀ j, (l2.get? j).map (fun t => (t.kind, t.original_text)) =
      (l1.get? j).map (fun t => (t.kind, t.original_text))) (j : Nat) :
    narration_text_at l2 j = narration_text_at l1 j := by
  have hj := h j
  unfold narration_text_at
  cases h2 : l2.get? j with
  | none =>
    cases h1 : l1.get? j with
    | none => rfl
    | some p =>
      rw [h2, h1] at hj
      simp at hj
  | some p2 =>
    cases h1 : l1.get? j with
    | none =>
      rw [h2, h1] at hj
      simp at hj
    | some p1 =>
      rw [h2, h1] at hj
      simp only [Option.map_some', Option.some.injEq, Prod.mk.injEq] at hj
      simp [hj.1, hj.2]

theorem context_parts_at_congr {l1 l2 : List Segment}
    (h : ∀ j, (l2.get? j).map (fun t => (t.kind, t.original_text)) =
      (l1.get? j).map (fun t => (t.kind, t.original_text))) (i : Nat) :
    context_parts_at l2 i = context_parts_at l1 i := by
  unfold context_parts_at
  rw [narration_text_at_congr h, narration_text_at_congr h]

theorem attribute_step_idem (m : Matchers) (l l2 : List Segment) (i : Nat) (s : Segment)
    (h : ∀ j, (l2.get? j).map (fun t => (t.kind, t.original_text)) =
      (l.get? j).map (fun t => (t.kind, t.original_text))) :
    attribute_explicit_step m l2 i (attribute_explicit_step m l i s) =
      attribute_explicit_step m l i s := by
  have hctx : context_parts_at l2 i = context_parts_at l i := context_parts_at_congr h i
  by_cases h0 : s.kind ≠ "dialogue" ∨ s.speaker ≠ "unknown"
  · have e1 : attribute_explicit_step m l i s = s := by
      simp [attribute_explicit_step, h0]
    rw [e1]
    simp [attribute_explicit_step, h0]
  · push_neg at h0
    by_cases hemp : context_parts_at l i = []
    · have e1 : attribute_explicit_step m l i s = s := by
        simp [attribute_explicit_step, h0.1, h0.2, hemp]
      rw [e1]
      simp [attribute_explicit_step, h0.1, h0.2, hctx, hemp]
    · cases hA : m.try_name_a (String.intercalate " " (context_parts_at l i)) with
      | some name =>
        have e1 : attribute_explicit_step m l i s =
            { s with speaker := name, attribution_source := "explicit" } := by
          simp [attribute_explicit_step, h0.1, h0.2, hemp, hA]
        rw [e1]
        by_cases hn : name = "unknown"
        · subst hn
          simp [attribute_explicit_step, h0.1, hctx, hemp, hA]
        · simp [attribute_explicit_step, hn]
      | none =>
        cases hB : m.try_name_b (String.intercalate " " (context_parts_at l i)) with
        | some name =>
          have e1 : attribute_explicit_step m l i s =
              { s with speaker := name, attribution_source := "explicit" } := by
            simp [attribute_explicit_step, h0.1, h0.2, hemp, hA, hB]
          rw [e1]
          by_cases hn : name = "unknown"
          · subst hn
            simp [attribute_explicit_step, h0.1, hctx, hemp, hA, hB]
          · simp [attribute_explicit_step, hn]
        | none =>
          cases hP : m.try_pronoun (String.intercalate " " (context_parts_at l i)) with
          | some p =>
            have e1 : attribute_explicit_step m l i s =
                { s with attribution_source :=
                    "pronoun_" ++ (if pyLower p = "he" then "male" else "female") } := by
              simp [attribute_explicit_step, h0.1, h0.2, hemp, hA, hB, hP]
            rw [e1]
            simp [attribute_explicit_step, h0.1, h0.2, hctx, hemp, hA, hB, hP]
          | none =>
            have e1 : attribute_explicit_step m l i s = s := by
              simp [attribute_explicit_step, h0.1, h0.2, hemp, hA, hB, hP]
            rw [e1]
            simp [attribute_explicit_step, h0.1, h0.2, hctx, hemp, hA, hB, hP]

theorem attribute_explicit_proj (m : Matchers) (l : List Segment) :
    ∀ j, ((attribute_explicit m l).get? j).map (fun t => (t.kind, t.original_text)) =
      (l.get? j).map (fun t => (t.kind, t.original_text)) := by
  intro j
  unfold attribute_explicit
  rw [map_with_index_get]
  cases l.get? j with
  | none => rfl
  | some s =>
    simp only [Option.map_some']
    rw [(step_preserves m l (0 + j) s).1, (step_preserves m l (0 + j) s).2]

theorem attribute_explicit_idem (m : Matchers) (l : List Segment) :
    attribute_explicit m (attribute_explicit m l) = attribute_explicit m l := by
  apply List.ext_get?
  intro i
  conv_lhs => rw [attribute_explicit, map_with_index_get]
  conv_rhs => rw [attribute_explicit, map_with_index_get]
  rw [attribute_explicit, map_with_index_get]
  cases l.get? i with
  | none => rfl
  | some s =>
    simp only [Option.map_some']
    exact congrArg some (attribute_step_idem m l (attribute_explicit m l) (0 + i) s
      (attribute_explicit_proj m l))

end AudiobookPipeline


namespace AudiobookPipeline

theorem explicit_not_pronoun {src : String}
    (hp : starts_with src "pronoun_" = true) : src ≠ "explicit" := by
  intro he
  rw [he] at hp
  exact absurd hp (by decide)

theorem turn_taking_not_pronoun : starts_with "turn_taking" "pronoun_" = false := by
  decide

theorem rp_proj (ks : List (String × Option String)) (l : List Segment) :
    (resolve_pronoun_segments ks l).map proj = l.map proj := by
  unfold resolve_pronoun_segments
  rw [List.map_map]
  apply List.map_congr_left
  intro seg _
  by_cases hp : starts_with seg.attribution_source "pronoun_" = true
  · have hne : seg.attribution_source ≠ "explicit" := explicit_not_pronoun hp
    simp only [Function.comp_apply, hp, if_true]
    rcases hc : (ks.filter fun kv =>
        kv.2 = some (after_first_underscore seg.attribution_source)).map (·.1) with
      _ | ⟨c, _ | ⟨c2, cs⟩⟩ <;> simp [hc, proj, hne]
  · simp [Function.comp_apply, hp]

theorem alt_proj (l : List Segment) : ∀ conv streak,
    (∀ s ∈ l, s.attribution_source = "explicit" → s.speaker ≠ "unknown") →
    (alternate_speakers conv streak l).map proj = l.map proj := by
  induction l with
  | nil => intro conv streak _; rfl
  | cons seg rest ih =>
    intro conv streak hexp
    have hexpr : ∀ s ∈ rest, s.attribution_source = "explicit" → s.speaker ≠ "unknown" :=
      fun s hs => hexp s (List.mem_cons_of_mem _ hs)
    by_cases hk : seg.kind = "narration"
    · by_cases hr : NARRATION_GAP_RESET ≤ streak + 1 <;>
        simp [alternate_speakers, hk, hr, ih _ _ hexpr]
    · by_cases hd : seg.kind = "dialogue"
      · by_cases hs : seg.speaker ≠ "unknown" ∧ seg.attribution_source ≠ "none"
        · simp [alternate_speakers, hk, hd, hs, ih _ _ hexpr]
        · have hne : seg.attribution_source ≠ "explicit" := by
            intro he
            by_cases hsp : seg.speaker = "unknown"
            · exact hexp seg (List.mem_cons_self _ _) he hsp
            · refine hs ⟨hsp, ?_⟩
              rw [he]
              intro h2
              exact absurd h2 (by decide)
          rcases conv with _ | ⟨a, _ | ⟨b, t⟩⟩
          · simp [alternate_speakers, hk, hd, hs, ih _ _ hexpr]
          · simp [alternate_speakers, hk, hd, hs, ih _ _ hexpr]
          · simp [alternate_speakers, hk, hd, hs, ih _ _ hexpr, proj, hne]
      · simp [alternate_speakers, hk, hd, ih _ _ hexpr]

theorem hexp_rp (ks : List (String × Option String)) (l : List Segment)
    (hexp : ∀ s ∈ l, s.attribution_source = "explicit" → s.speaker ≠ "unknown") :
    ∀ s ∈ resolve_pronoun_segments ks l,
      s.attribution_source = "explicit" → s.speaker ≠ "unknown" := by
  intro s hs
  unfold resolve_pronoun_segments at hs
  rw [List.mem_map] at hs
  obtain ⟨t, ht, heq⟩ := hs
  by_cases hp : starts_with t.attribution_source "pronoun_" = true
  · rcases hc : (ks.filter fun kv =>
        kv.2 = some (after_first_underscore t.attribution_source)).map (·.1) with
      _ | ⟨c, _ | ⟨c2, cs⟩⟩
    · have hts : t = s := by
        rw [← heq]
        simp [hp, hc]
      subst hts
      exact hexp t ht
    · have hts : { t with speaker := c, attribution_source := "turn_taking" } = s := by
        rw [← heq]
        simp [hp, hc]
      rw [← hts]
      intro he
      simp at he
    · have hts : t = s := by
        rw [← heq]
        simp [hp, hc]
      subst hts
      exact hexp t ht
  · have hts : t = s := by
      rw [← heq]
      simp [hp]
    subst hts
    exact hexp t ht

end AudiobookPipeline

namespace AudiobookPipeline

theorem hexp_alt (l : List Segment) : ∀ conv streak,
    (∀ s ∈ l, s.attribution_source = "explicit" → s.speaker ≠ "unknown") →
    ∀ s ∈ alternate_speakers conv streak l,
      s.attribution_source = "explicit" → s.speaker ≠ "unknown" := by
  induction l with
  | nil => intro conv streak _ s hs; simp [alternate_speakers] at hs
  | cons seg rest ih =>
    intro conv streak hexp s hs
    have hexph := hexp seg (List.mem_cons_self _ _)
    have hexpr : ∀ s ∈ rest, s.attribution_source = "explicit" → s.speaker ≠ "unknown" :=
      fun s hs => hexp s (List.mem_cons_of_mem _ hs)
    by_cases hk : seg.kind = "narration"
    · by_cases hr : NARRATION_GAP_RESET ≤ streak + 1
      all_goals
        simp [alternate_speakers, hk, hr] at hs
        rcases hs with h | h
        · subst h; exact hexph
        · exact ih _ _ hexpr s h
    · by_cases hd : seg.kind = "dialogue"
      · by_cases hcs : seg.speaker ≠ "unknown" ∧ seg.attribution_source ≠ "none"
        · simp [alternate_speakers, hk, hd, hcs] at hs
          rcases hs with h | h
          · subst h; exact hexph
          · exact ih _ _ hexpr s h
        · rcases conv with _ | ⟨a, _ | ⟨b, t⟩⟩
          · simp [alternate_speakers, hk, hd, hcs] at hs
            rcases hs with h | h
            · subst h; exact hexph
            · exact ih _ _ hexpr s h
          · simp [alternate_speakers, hk, hd, hcs] at hs
            rcases hs with h | h
            · subst h; exact hexph
            · exact ih _ _ hexpr s h
          · simp [alternate_speakers, hk, hd, hcs] at hs
            rcases hs with h | h
            · subst h
              intro he
              simp at he
            · exact ih _ _ hexpr s h
      · simp [alternate_speakers, hk, hd] at hs
        rcases hs with h | h
        · subst h; exact hexph
        · exact ih _ _ hexpr s h

theorem alt_pronoun_mem (l : List Segment) : ∀ conv streak (s : Segment),
    s ∈ alternate_speakers conv streak l →
    starts_with s.attribution_source "pronoun_" = true → s ∈ l := by
  induction l with
  | nil => intro conv streak s hs _; simp [alternate_speakers] at hs
  | cons seg rest ih =>
    intro conv streak s hs hp
    by_cases hk : seg.kind = "narration"
    · by_cases hr : NARRATION_GAP_RESET ≤ streak + 1
      all_goals
        simp [alternate_speakers, hk, hr] at hs
        rcases hs with h | h
        · subst h; exact List.mem_cons_self _ _
        · exact List.mem_cons_of_mem _ (ih _ _ s h hp)
    · by_cases hd : seg.kind = "dialogue"
      · by_cases hcs : seg.speaker ≠ "unknown" ∧ seg.attribution_source ≠ "none"
        · simp [alternate_speakers, hk, hd, hcs] at hs
          rcases hs with h | h
          · subst h; exact List.mem_cons_self _ _
          · exact List.mem_cons_of_mem _ (ih _ _ s h hp)
        · rcases conv with _ | ⟨a, _ | ⟨b, t⟩⟩
          · simp [alternate_speakers, hk, hd, hcs] at hs
            rcases hs with h | h
            · subst h; exact List.mem_cons_self _ _
            · exact List.mem_cons_of_mem _ (ih _ _ s h hp)
          · simp [alternate_speakers, hk, hd, hcs] at hs
            rcases hs with h | h
            · subst h; exact List.mem_cons_self _ _
            · exact List.mem_cons_of_mem _ (ih _ _ s h hp)
          · simp [alternate_speakers, hk, hd, hcs] at hs
            rcases hs with h | h
            · subst h
              simp at hp
              exact absurd hp (by decide)
            · exact List.mem_cons_of_mem _ (ih _ _ s h hp)
      · simp [alternate_speakers, hk, hd] at hs
        rcases hs with h | h
        · subst h; exact List.mem_cons_self _ _
        · exact List.mem_cons_of_mem _ (ih _ _ s h hp)

theorem rp_pronoun_mem (ks : List (String × Option String)) (l : List Segment)
    (s : Segment) (hs : s ∈ resolve_pronoun_segments ks l)
    (hp : starts_with s.attribution_source "pronoun_" = true) :
    s ∈ l ∧ ∀ c, ((ks.filter fun kv =>
      kv.2 = some (after_first_underscore s.attribution_source)).map (·.1)) ≠ [c] := by
  unfold resolve_pronoun_segments at hs
  rw [List.mem_map] at hs
  obtain ⟨t, ht, heq⟩ := hs
  by_cases htp : starts_with t.attribution_source "pronoun_" = true
  · rcases hc : (ks.filter fun kv =>
        kv.2 = some (after_first_underscore t.attribution_source)).map (·.1) with
      _ | ⟨c, _ | ⟨c2, cs⟩⟩
    · have hts : t = s := by
        rw [← heq]
        simp [htp, hc]
      subst hts
      refine ⟨ht, ?_⟩
      rw [hc]
      intro c h
      cases h
    · exfalso
      rw [← heq] at hp
      simp [htp, hc] at hp
      exact absurd hp (by decide)
    · have hts : t = s := by
        rw [← heq]
        simp [htp, hc]
      subst hts
      refine ⟨ht, ?_⟩
      rw [hc]
      intro c h
      cases h
  · have hts : t = s := by
      rw [← heq]
      simp [htp]
    subst hts
    exact absurd hp htp

theorem rp_id_of_unresolved (ks : List (String × Option String)) :
    ∀ l : List Segment,
      (∀ s ∈ l, starts_with s.attribution_source "pronoun_" = true →
        ∀ c, ((ks.filter fun kv =>
          kv.2 = some (after_first_underscore s.attribution_source)).map (·.1)) ≠ [c]) →
      resolve_pronoun_segments ks l = l := by
  intro l
  induction l with
  | nil => intro _; rfl
  | cons seg rest ih =>
    intro h
    have hh := h seg (List.mem_cons_self _ _)
    have htl : resolve_pronoun_segments ks rest = rest :=
      ih fun s hs => h s (List.mem_cons_of_mem _ hs)
    unfold resolve_pronoun_segments at htl ⊢
    simp only [List.map_cons, htl, List.cons.injEq]
    refine ⟨?_, trivial⟩
    by_cases hp : starts_with seg.attribution_source "pronoun_" = true
    · rcases hc : (ks.filter fun kv =>
          kv.2 = some (after_first_underscore seg.attribution_source)).map (·.1) with
        _ | ⟨c, _ | ⟨c2, cs⟩⟩
      · simp [hp, hc]
      · exact absurd hc (hh hp c)
      · simp [hp, hc]
    · simp [hp]

end AudiobookPipeline

namespace AudiobookPipeline

theorem foldl_fun_congr {α β : Type _} (f g : β → α → β)
    (h : ∀ b a, f b a = g b a) : ∀ (l : List α) (b : β),
      List.foldl f b l = List.foldl g b l := by
  intro l
  induction l with
  | nil => intro b; rfl
  | cons a r ih =>
    intro b
    simp only [List.foldl_cons]
    rw [h]
    exact ih _

theorem collect_go_congr :
    ∀ l1 l2 : List Segment, l1.map proj = l2.map proj →
    ∀ ks, List.foldl (fun ks seg =>
        if seg.attribution_source = "explicit" ∧ seg.speaker ≠ "narrator" then
          ks_setdefault ks seg.speaker else ks) ks l1 =
      List.foldl (fun ks seg =>
        if seg.attribution_source = "explicit" ∧ seg.speaker ≠ "narrator" then
          ks_setdefault ks seg.speaker else ks) ks l2 := by
  intro l1
  induction l1 with
  | nil =>
    intro l2 h ks
    cases l2 with
    | nil => rfl
    | cons s2 r2 => simp at h
  | cons s1 r1 ih =>
    intro l2 h ks
    cases l2 with
    | nil => simp at h
    | cons s2 r2 =>
      simp only [List.map_cons, List.cons.injEq] at h
      obtain ⟨hp, hr⟩ := h
      unfold proj at hp
      simp only [Prod.mk.injEq] at hp
      obtain ⟨hk, ht, ho⟩ := hp
      simp only [List.foldl_cons]
      have hstep : (if s1.attribution_source = "explicit" ∧ s1.speaker ≠ "narrator" then
          ks_setdefault ks s1.speaker else ks) =
          (if s2.attribution_source = "explicit" ∧ s2.speaker ≠ "narrator" then
          ks_setdefault ks s2.speaker else ks) := by
        by_cases e1 : s1.attribution_source = "explicit"
        · by_cases e2 : s2.attribution_source = "explicit"
          · have hsp : s1.speaker = s2.speaker := by simpa [e1, e2] using ho
            rw [e1, e2, hsp]
          · simp [e1, e2] at ho
        · by_cases e2 : s2.attribution_source = "explicit"
          · simp [e1, e2] at ho
          · simp [e1, e2]
      rw [hstep]
      exact ih r2 hr _

theorem gender_neighbor_congr (ks : List (String × Option String)) (name : String)
    {o1 o2 : Option Segment} (h : o1.map proj = o2.map proj) :
    gender_from_neighbor ks name o1 = gender_from_neighbor ks name o2 := by
  cases o1 with
  | none =>
    cases o2 with
    | none => rfl
    | some p => simp at h
  | some p1 =>
    cases o2 with
    | none => simp at h
    | some p2 =>
      simp only [Option.map_some', Option.some.injEq] at h
      unfold proj at h
      simp only [Prod.mk.injEq] at h
      obtain ⟨hk, ht, _⟩ := h
      simp only [gender_from_neighbor]
      rw [hk, ht]

theorem infer_congr (l1 l2 : List Segment) (h : l1.map proj = l2.map proj)
    (ks0 : List (String × Option String)) :
    infer_genders l1 ks0 = infer_genders l2 ks0 := by
  have hlen : l1.length = l2.length := by
    have := congrArg List.length h
    simpa using this
  have hget : ∀ j, (l1.get? j).map proj = (l2.get? j).map proj := by
    intro j
    rw [← List.get?_map, ← List.get?_map, h]
  unfold infer_genders
  rw [hlen]
  apply foldl_fun_congr
  intro ks i
  beta_reduce
  have hj := hget i
  cases h1 : l1.get? i with
  | none =>
    cases h2 : l2.get? i with
    | none => rfl
    | some p =>
      rw [h1, h2] at hj
      simp at hj
  | some p1 =>
    cases h2 : l2.get? i with
    | none =>
      rw [h1, h2] at hj
      simp at hj
    | some p2 =>
      rw [h1, h2] at hj
      simp only [Option.map_some', Option.some.injEq] at hj
      unfold proj at hj
      simp only [Prod.mk.injEq] at hj
      obtain ⟨hk, ht, ho⟩ := hj
      dsimp only
      by_cases e1 : p1.attribution_source = "explicit"
      · by_cases e2 : p2.attribution_source = "explicit"
        · have hsp : p1.speaker = p2.speaker := by simpa [e1, e2] using ho
          have hn1 : gender_from_neighbor ks p2.speaker (l1.get? (i - 1)) =
              gender_from_neighbor ks p2.speaker (l2.get? (i - 1)) :=
            gender_neighbor_congr _ _ (hget _)
          have hn2 : ∀ ksx : List (String × Option String),
              gender_from_neighbor ksx p2.speaker (l1.get? (i + 1)) =
                gender_from_neighbor ksx p2.speaker (l2.get? (i + 1)) :=
            fun ksx => gender_neighbor_congr _ _ (hget _)
          rw [e1, e2, hsp, hn1, hn2]
        · simp [e1, e2] at ho
      · by_cases e2 : p2.attribution_source = "explicit"
        · simp [e1, e2] at ho
        · simp [e1, e2]

theorem resolve_pronouns_fixpoint (l : List Segment)
    (hexp : ∀ s ∈ l, s.attribution_source = "explicit" → s.speaker ≠ "unknown") :
    resolve_pronouns (apply_turn_taking l) = apply_turn_taking l := by
  have hexp_mid : ∀ s ∈ resolve_pronouns l,
      s.attribution_source = "explicit" → s.speaker ≠ "unknown" := by
    unfold resolve_pronouns
    exact hexp_rp _ l hexp
  have hm1 : (resolve_pronouns l).map proj = l.map proj := by
    unfold resolve_pronouns
    exact rp_proj _ l
  have hout : (apply_turn_taking l).map proj = l.map proj := by
    unfold apply_turn_taking
    rw [alt_proj (resolve_pronouns l) [] 0 hexp_mid, hm1]
  have hks : infer_genders (apply_turn_taking l)
        (collect_known_speakers (apply_turn_taking l)) =
      infer_genders l (collect_known_speakers l) := by
    have hc : collect_known_speakers (apply_turn_taking l) = collect_known_speakers l := by
      unfold collect_known_speakers
      exact collect_go_congr _ _ hout []
    rw [hc]
    exact infer_congr _ _ hout _
  unfold resolve_pronouns
  rw [hks]
  apply rp_id_of_unresolved
  intro s hs hp
  have hs_mid : s ∈ resolve_pronouns l := by
    unfold apply_turn_taking at hs
    exact alt_pronoun_mem _ [] 0 s hs hp
  unfold resolve_pronouns at hs_mid
  exact (rp_pronoun_mem _ l s hs_mid hp).2

theorem apply_turn_taking_fix (l : List Segment)
    (hexp : ∀ s ∈ l, s.attribution_source = "explicit" → s.speaker ≠ "unknown") :
    apply_turn_taking (apply_turn_taking l) = apply_turn_taking l := by
  have h1 := resolve_pronouns_fixpoint l hexp
  show alternate_speakers [] 0 (resolve_pronouns (apply_turn_taking l)) = apply_turn_taking l
  rw [h1]
  show alternate_speakers [] 0 (alternate_speakers [] 0 (resolve_pronouns l)) =
    apply_turn_taking l
  exact alternate_speakers_idem _ [] 0 (by simp) (by simp)

theorem assign_pauses_go_idem : ∀ (rest : List Segment) (prev prev2 : Segment),
    prev2.kind = prev.kind → prev2.paragraph_index = prev.paragraph_index →
    assign_pauses_go prev2 (assign_pauses_go prev rest) = assign_pauses_go prev rest := by
  intro rest
  induction rest with
  | nil => intro _ _ _ _; rfl
  | cons seg r ih =>
    intro prev prev2 hk hp
    simp only [assign_pauses_go]
    have hrule : pause_rule prev2 { seg with pause_before_ms := pause_rule prev seg } =
        pause_rule prev seg := by
      simp [pause_rule, hk, hp]
    rw [hrule]
    rw [ih _ _ rfl rfl]

theorem assign_pauses_idem (l : List Segment) :
    assign_pauses (assign_pauses l) = assign_pauses l := by
  cases l with
  | nil => rfl
  | cons s rest =>
    simp only [assign_pauses]
    rw [assign_pauses_go_idem _ _ _ rfl rfl]

/-- C8 (amended): Stage 2 (`attribute_explicit`) re-run on its own output
changes nothing, for every matcher set and segment list; Stage 3
(`apply_turn_taking`) re-run on its own output changes nothing provided
every explicitly-attributed segment has a non-unknown speaker (the
pipeline invariant the claim presupposes); and Stage 5 (`assign_pauses`)
re-run on its own output yields the identical list, pauses included,
since the rules read only `(kind, paragraph_index)`. -/
theorem C8_idempotence :
    (∀ (m : Matchers) (segments : List Segment),
      attribute_explicit m (attribute_explicit m segments) =
        attribute_explicit m segments) ∧
    (∀ segments : List Segment,
      (∀ s ∈ segments, s.attribution_source = "explicit" → s.speaker ≠ "unknown") →
      apply_turn_taking (apply_turn_taking segments) = apply_turn_taking segments) ∧
    (∀ segments : List Segment,
      assign_pauses (assign_pauses segments) = assign_pauses segments) :=
  ⟨attribute_explicit_idem, apply_turn_taking_fix, assign_pauses_idem⟩

/-- Witness for `C8_idempotence` at concrete inputs. -/
theorem C8_idempotence_witness :
    (attribute_explicit mNone (attribute_explicit mNone c1pre) =
      attribute_explicit mNone c1pre) ∧
    (apply_turn_taking (apply_turn_taking c1pre) = apply_turn_taking c1pre) ∧
    (assign_pauses (assign_pauses c1pre) = assign_pauses c1pre) :=
  ⟨C8_idempotence.1 mNone c1pre,
    C8_idempotence.2.1 c1pre (by decide),
    C8_idempotence.2.2 c1pre⟩

/-- C8 counterexample: on `ex8` a second run of Stage 3 changes segment 8,
so "running Stage 3 a second time on its own output changes no segment
field" fails for this segment list. -/
theorem C8_counterexample :
    (apply_turn_taking (apply_turn_taking ex8)).map
        (fun s => (s.speaker, s.attribution_source)) ≠
      (apply_turn_taking ex8).map (fun s => (s.speaker, s.attribution_source)) := by
  decide

end AudiobookPipeline

namespace AudiobookPipeline

theorem alt_unknown_id (post : List Segment) : ∀ streak,
    (∀ d ∈ post, d.kind = "dialogue" → d.speaker = "unknown") →
    alternate_speakers [] streak post = post := by
  induction post with
  | nil => intro streak _; rfl
  | cons seg rest ih =>
    intro streak hpost
    have hrest : ∀ d ∈ rest, d.kind = "dialogue" → d.speaker = "unknown" :=
      fun d hd => hpost d (List.mem_cons_of_mem _ hd)
    by_cases hk : seg.kind = "narration"
    · by_cases hr : NARRATION_GAP_RESET ≤ streak + 1 <;>
        simp [alternate_speakers, hk, hr, ih _ hrest]
    · by_cases hd : seg.kind = "dialogue"
      · have hu : seg.speaker = "unknown" := hpost seg (List.mem_cons_self _ _) hd
        have hs : ¬(seg.speaker ≠ "unknown" ∧ seg.attribution_source ≠ "none") := by
          intro h
          exact h.1 hu
        simp [alternate_speakers, hk, hd, hs, ih _ hrest]
      · simp [alternate_speakers, hk, hd, ih _ hrest]

/-- C5 (amended): on the segment list actually produced by Stage 1 the
two short narration paragraphs are merged into a SINGLE narration segment,
so the conversation history does NOT clear and Stage 3 assigns the later
dialogue a speaker by alternation (see the counterexample).  The reset the
claim describes happens exactly when the consecutive narration survives as
two or more narration segments: whenever two adjacent narration segments
are present, every dialogue segment after them that is still unknown
remains unknown through Pass B. -/
theorem C5_scene_reset :
    ∀ (pre : List Segment) (n1 n2 : Segment) (post : List Segment)
      (conv : List String) (streak : Nat),
      n1.kind = "narration" → n2.kind = "narration" →
      (∀ d ∈ post, d.kind = "dialogue" → d.speaker = "unknown") →
      alternate_speakers conv streak (pre ++ n1 :: n2 :: post) =
        alternate_speakers conv streak pre ++ n1 :: n2 :: post := by
  intro pre n1 n2 post conv streak h1 h2 hpost
  rw [alternate_speakers_append]
  congr 1
  have hid := alt_unknown_id post ((alt_state conv streak pre).2 + 1 + 1) hpost
  simp [alternate_speakers, h1, h2, NARRATION_GAP_RESET, hid]

/-- Witness for `C5_scene_reset` at concrete segments. -/
theorem C5_scene_reset_witness :
    alternate_speakers [] 0
        (c1pre ++ wSeg 3 "narration" "narrator" "none" ::
          wSeg 4 "narration" "narrator" "none" ::
          [wSeg 5 "dialogue" "unknown" "none"]) =
      alternate_speakers [] 0 c1pre ++
        wSeg 3 "narration" "narrator" "none" ::
          wSeg 4 "narration" "narrator" "none" ::
          [wSeg 5 "dialogue" "unknown" "none"] :=
  C5_scene_reset c1pre _ _ _ [] 0 rfl rfl (by decide)

/-- C5 counterexample: on `exText` — an Anna/Ben conversation, two short
pure-narration paragraphs, then further unattributed dialogue — Stage 1's
merge pass collapses the two narration paragraphs into one segment
(`"The rain fell.\nThe garden slept."`), so after Stage 3 the later
dialogue segment carries `speaker="Anna"` with
`attribution_source="turn_taking"` instead of remaining unknown. -/
theorem C5_counterexample :
    (split_segments exText).map (·.original_text) =
      ["Then said Anna,", "Hi.", "Hey,", "said Ben.", "How are you?",
        "The rain fell.\nThe garden slept.", "Anyone here?"] ∧
    (apply_turn_taking (attribute_explicit exM (split_segments exText))).map
        (fun s => (s.kind, s.speaker, s.attribution_source)) =
      [("narration", "narrator", "none"), ("dialogue", "Anna", "explicit"),
        ("dialogue", "Ben", "explicit"), ("narration", "narrator", "none"),
        ("dialogue", "Ben", "explicit"), ("narration", "narrator", "none"),
        ("dialogue", "Anna", "turn_taking")] := by
  constructor
  · decide
  · decide

end AudiobookPipeline

namespace AudiobookPipeline

theorem Chained.mono : ∀ (l : List Span) (a b b' : Nat),
    Chained a b l → b ≤ b' → Chained a b' l := by
  intro l
  induction l with
  | nil => intro a b b' _ _; trivial
  | cons sp rest ih =>
    intro a b b' h hb
    obtain ⟨h1, h2, h3, h4⟩ := h
    exact ⟨h1, h2, by omega, ih sp.stop b b' h4 hb⟩

theorem extract_go_chained (para : List Char) :
    ∀ (rest : List Char) (prev : Option Char) (i : Nat) (st : Bool)
      (spanStart dts : Nat), spanStart ≤ i →
      Chained spanStart (i + rest.length) (extract_go para rest prev i st spanStart dts) := by
  intro rest
  induction rest with
  | nil =>
    intro prev i st spanStart dts hle
    simp only [extract_go, List.length_nil, Nat.add_zero]
    by_cases hlt : spanStart < i
    · cases st <;> simp only [hlt, if_true, if_pos, Bool.false_eq_true, if_false] <;>
        exact ⟨le_refl _, hlt, le_refl _, trivial⟩
    · simp only [hlt, if_false, if_neg hlt]
      trivial
  | cons c rest2 ih =>
    intro prev i st spanStart dts hle
    simp only [extract_go, List.length_cons]
    by_cases hst : st = false
    · subst hst
      simp only [if_pos rfl]
      by_cases hopen : c ∈ OPEN_QUOTES ∨ (c = STRAIGHT_DOUBLE ∧ ¬ is_closing_straight prev)
      · simp only [hopen, if_pos]
        by_cases hlt : spanStart < i
        · simp only [hlt, if_pos]
          refine ⟨?_, ?_, ?_, ?_⟩
          · show spanStart ≤ spanStart
            exact le_refl _
          · show spanStart < i
            exact hlt
          · show i ≤ i + (rest2.length + 1)
            omega
          · show Chained i (i + (rest2.length + 1))
              (extract_go para rest2 (some c) (i + 1) true i (i + 1))
            exact Chained.mono _ _ _ _ (ih (some c) (i + 1) true i (i + 1) (by omega)) (by omega)
        · simp only [hlt, if_neg hlt, List.nil_append]
          have heq : spanStart = i := by omega
          rw [heq]
          exact Chained.mono _ _ _ _ (ih (some c) (i + 1) true i (i + 1) (by omega)) (by omega)
      · simp only [hopen, if_neg hopen]
        exact Chained.mono _ _ _ _ (ih (some c) (i + 1) false spanStart dts (by omega)) (by omega)
    · have hst' : st = true := by revert hst; cases st <;> simp
      subst hst'
      simp only [Bool.true_eq_false, if_neg, if_false]
      by_cases hclose : c ∈ CLOSE_QUOTES ∨ (c = STRAIGHT_DOUBLE ∧ is_closing_straight prev)
      · simp only [hclose, if_pos]
        refine ⟨?_, ?_, ?_, ?_⟩
        · show spanStart ≤ spanStart
          exact le_refl _
        · show spanStart < i + 1
          omega
        · show i + 1 ≤ i + (rest2.length + 1)
          omega
        · show Chained (i + 1) (i + (rest2.length + 1))
            (extract_go para rest2 (some c) (i + 1) false (i + 1) dts)
          exact Chained.mono _ _ _ _ (ih (some c) (i + 1) false (i + 1) dts (by omega)) (by omega)
      · simp only [hclose, if_neg hclose]
        exact Chained.mono _ _ _ _ (ih (some c) (i + 1) true spanStart dts (by omega)) (by omega)

theorem chained_bounds : ∀ (l : List Span) (a b : Nat), Chained a b l →
    (∀ sp ∈ l, a ≤ sp.start ∧ sp.start < sp.stop ∧ sp.stop ≤ b) ∧
      l.Pairwise (fun x y => x.stop ≤ y.start) := by
  intro l
  induction l with
  | nil =>
    intro a b _
    exact ⟨fun sp h => absurd h (List.not_mem_nil sp), List.Pairwise.nil⟩
  | cons sp rest ih =>
    intro a b h
    obtain ⟨h1, h2, h3, h4⟩ := h
    obtain ⟨hbnd, hpw⟩ := ih sp.stop b h4
    constructor
    · intro t ht
      rcases List.mem_cons.mp ht with h | h
      · subst h
        exact ⟨h1, h2, h3⟩
      · obtain ⟨ha, hb2, hc⟩ := hbnd t h
        exact ⟨by omega, hb2, hc⟩
    · exact List.Pairwise.cons (fun t ht => (hbnd t ht).1) hpw

theorem spans_to_segments_props (paraIdx goff : Nat) :
    ∀ (spans : List Span) (segId plen : Nat),
      (∀ sp ∈ spans, sp.start < sp.stop ∧ sp.stop ≤ plen) →
      spans.Pairwise (fun x y => x.stop ≤ y.start) →
      (∀ s ∈ (spans_to_segments paraIdx goff spans segId).1,
        goff ≤ s.char_offset_start ∧ s.char_offset_start < s.char_offset_end ∧
          s.char_offset_end ≤ goff + plen) ∧
      (∀ s ∈ (spans_to_segments paraIdx goff spans segId).1,
        ∃ sp ∈ spans, s.char_offset_start = goff + sp.start) ∧
      (spans_to_segments paraIdx goff spans segId).1.Pairwise
        (fun x y => x.char_offset_end ≤ y.char_offset_start) := by
  intro spans
  induction spans with
  | nil =>
    intro segId plen _ _
    refine ⟨?_, ?_, ?_⟩ <;> simp [spans_to_segments]
  | cons sp rest ih =>
    intro segId plen hbnd hpw
    have hbr : ∀ t ∈ rest, t.start < t.stop ∧ t.stop ≤ plen :=
      fun t ht => hbnd t (List.mem_cons_of_mem _ ht)
    have hpr : rest.Pairwise (fun x y => x.stop ≤ y.start) := hpw.of_cons
    by_cases hemp : (pyStripChars sp.raw).isEmpty
    · simp only [spans_to_segments, hemp, if_pos]
      obtain ⟨a1, a2, a3⟩ := ih segId plen hbr hpr
      refine ⟨a1, ?_, a3⟩
      intro s hs
      obtain ⟨sp2, hsp2, he⟩ := a2 s hs
      exact ⟨sp2, List.mem_cons_of_mem _ hsp2, he⟩
    · simp only [spans_to_segments, hemp, if_neg, Bool.false_eq_true, if_false]
      obtain ⟨a1, a2, a3⟩ := ih (segId + 1) plen hbr hpr
      have hh := hbnd sp (List.mem_cons_self _ _)
      refine ⟨?_, ?_, ?_⟩
      · intro s hs
        rcases List.mem_cons.mp hs with h | h
        · subst h
          exact ⟨by simp, by simp; omega, by simp; omega⟩
        · exact a1 s h
      · intro s hs
        rcases List.mem_cons.mp hs with h | h
        · subst h
          exact ⟨sp, List.mem_cons_self _ _, by simp⟩
        · obtain ⟨sp2, hsp2, he⟩ := a2 s h
          exact ⟨sp2, List.mem_cons_of_mem _ hsp2, he⟩
      · refine List.Pairwise.cons ?_ a3
        intro t ht
        obtain ⟨sp2, hsp2, he⟩ := a2 t ht
        have hrel := (List.pairwise_cons.mp hpw).1 sp2 hsp2
        simp only []
        rw [he]
        simp
        omega

theorem mk_segments_props :
    ∀ (paras : List (List Char)) (paraIdx goff segId : Nat),
      (∀ s ∈ mk_segments paras paraIdx goff segId,
        goff ≤ s.char_offset_start ∧ s.char_offset_start < s.char_offset_end) ∧
      (mk_segments paras paraIdx goff segId).Pairwise
        (fun x y => x.char_offset_end ≤ y.char_offset_start) := by
  intro paras
  induction paras with
  | nil =>
    intro paraIdx goff segId
    exact ⟨fun s h => absurd h (List.not_mem_nil s), List.Pairwise.nil⟩
  | cons para rest ih =>
    intro paraIdx goff segId
    by_cases hemp : (pyStripChars para).isEmpty
    · simp only [mk_segments, hemp, if_pos]
      obtain ⟨b1, b2⟩ := ih (paraIdx + 1) (goff + para.length + 1) segId
      refine ⟨?_, b2⟩
      intro s hs
      obtain ⟨hx, hy⟩ := b1 s hs
      exact ⟨by omega, hy⟩
    · simp only [mk_segments, hemp, if_neg, Bool.false_eq_true, if_false]
      have hch : Chained 0 para.length (extract_quote_spans para) := by
        have := extract_go_chained para para none 0 false 0 0 (le_refl 0)
        simpa [extract_quote_spans] using this
      obtain ⟨hbnd, hpw⟩ := chained_bounds _ 0 para.length hch
      obtain ⟨s1, s2, s3⟩ := spans_to_segments_props paraIdx goff
        (extract_quote_spans para) segId para.length
        (fun sp h => ⟨(hbnd sp h).2.1, (hbnd sp h).2.2⟩) hpw
      obtain ⟨b1, b2⟩ := ih (paraIdx + 1) (goff + para.length + 1)
        (spans_to_segments paraIdx goff (extract_quote_spans para) segId).2
      constructor
      · intro s hs
        rcases List.mem_append.mp hs with h | h
        · exact ⟨(s1 s h).1, (s1 s h).2.1⟩
        · obtain ⟨hx, hy⟩ := b1 s h
          exact ⟨by omega, hy⟩
      · rw [List.pairwise_append]
        refine ⟨s3, b2, ?_⟩
        intro x hx y hy
        have h1 := (s1 x hx).2.2
        have h2 := (b1 y hy).1
        omega

theorem merge_go_props (mc : Nat) :
    ∀ (rest : List Segment) (cur : Segment),
      cur.char_offset_start < cur.char_offset_end →
      (∀ s ∈ rest, s.char_offset_start < s.char_offset_end) →
      (cur :: rest).Pairwise (fun x y => x.char_offset_end ≤ y.char_offset_start) →
      (∀ s ∈ merge_go mc cur rest, s.char_offset_start < s.char_offset_end) ∧
      (∀ s ∈ merge_go mc cur rest, ∃ u ∈ cur :: rest,
        s.char_offset_start = u.char_offset_start) ∧
      (merge_go mc cur rest).Pairwise
        (fun x y => x.char_offset_end ≤ y.char_offset_start) := by
  intro rest
  induction rest with
  | nil =>
    intro cur hc _ _
    refine ⟨?_, ?_, ?_⟩ <;> simp [merge_go]
    · exact hc
  | cons seg rest2 ih =>
    intro cur hc hr hpw
    have hseg : seg.char_offset_start < seg.char_offset_end :=
      hr seg (List.mem_cons_self _ _)
    have hr2 : ∀ s ∈ rest2, s.char_offset_start < s.char_offset_end :=
      fun s hs => hr s (List.mem_cons_of_mem _ hs)
    have hcs : cur.char_offset_end ≤ seg.char_offset_start :=
      (List.pairwise_cons.mp hpw).1 seg (List.mem_cons_self _ _)
    have hpw2 : (seg :: rest2).Pairwise
        (fun x y => x.char_offset_end ≤ y.char_offset_start) := hpw.of_cons
    by_cases hm : cur.kind = "narration" ∧ seg.kind = "narration" ∧
        cur.original_text.length + seg.original_text.length + 1 ≤ mc
    · have hstep : merge_go mc cur (seg :: rest2) = merge_go mc
          { cur with
              original_text := cur.original_text ++ "\n" ++ seg.original_text,
              char_offset_end := seg.char_offset_end } rest2 := by
        simp only [merge_go]
        rw [if_pos hm]
      rw [hstep]
      have hcur' : ({ cur with
          original_text := cur.original_text ++ "\n" ++ seg.original_text,
          char_offset_end := seg.char_offset_end } : Segment).char_offset_start <
          ({ cur with
          original_text := cur.original_text ++ "\n" ++ seg.original_text,
          char_offset_end := seg.char_offset_end } : Segment).char_offset_end := by
        simp
        omega
      have hpw' : ({ cur with
          original_text := cur.original_text ++ "\n" ++ seg.original_text,
          char_offset_end := seg.char_offset_end } : Segment) :: rest2 |>.Pairwise
          (fun x y => x.char_offset_end ≤ y.char_offset_start) := by
        refine List.Pairwise.cons ?_ hpw2.of_cons
        intro t ht
        have := (List.pairwise_cons.mp hpw2).1 t ht
        simpa using this
      obtain ⟨m1, m2, m3⟩ := ih _ hcur' hr2 hpw'
      refine ⟨m1, ?_, m3⟩
      intro s hs
      obtain ⟨u, hu, he⟩ := m2 s hs
      rcases List.mem_cons.mp hu with h | h
      · subst h
        exact ⟨cur, List.mem_cons_self _ _, by simpa using he⟩
      · exact ⟨u, List.mem_cons_of_mem _ (List.mem_cons_of_mem _ h), he⟩
    · have hstep : merge_go mc cur (seg :: rest2) = cur :: merge_go mc seg rest2 := by
        simp only [merge_go]
        rw [if_neg hm]
      rw [hstep]
      obtain ⟨m1, m2, m3⟩ := ih seg hseg hr2 hpw2
      refine ⟨?_, ?_, ?_⟩
      · intro s hs
        rcases List.mem_cons.mp hs with h | h
        · subst h; exact hc
        · exact m1 s h
      · intro s hs
        rcases List.mem_cons.mp hs with h | h
        · exact ⟨cur, List.mem_cons_self _ _, by rw [h]⟩
        · obtain ⟨u, hu, he⟩ := m2 s h
          exact ⟨u, List.mem_cons_of_mem _ hu, he⟩
      · refine List.Pairwise.cons ?_ m3
        intro t ht
        obtain ⟨u, hu, he⟩ := m2 t ht
        have := (List.pairwise_cons.mp hpw).1 u hu
        omega

theorem renumber_props : ∀ (l : List Segment) (i : Nat),
    (∀ s ∈ renumber l i, ∃ u ∈ l,
      s.char_offset_start = u.char_offset_start ∧
        s.char_offset_end = u.char_offset_end) ∧
    (l.Pairwise (fun x y => x.char_offset_end ≤ y.char_offset_start) →
      (renumber l i).Pairwise (fun x y => x.char_offset_end ≤ y.char_offset_start)) := by
  intro l
  induction l with
  | nil => intro i; exact ⟨fun s h => absurd h (List.not_mem_nil s), fun _ => List.Pairwise.nil⟩
  | cons u rest ih =>
    intro i
    obtain ⟨a1, a2⟩ := ih (i + 1)
    constructor
    · intro s hs
      rcases List.mem_cons.mp hs with h | h
      · subst h
        exact ⟨u, List.mem_cons_self _ _, by simp⟩
      · obtain ⟨v, hv, he⟩ := a1 s h
        exact ⟨v, List.mem_cons_of_mem _ hv, he⟩
    · intro hpw
      refine List.Pairwise.cons ?_ (a2 hpw.of_cons)
      intro t ht
      obtain ⟨v, hv, he1, he2⟩ := a1 t ht
      have := (List.pairwise_cons.mp hpw).1 v hv
      simp only []
      rw [he1]
      simpa using this

/-- C6: every segment returned by `split_segments` (merge pass included)
has `char_offset_start < char_offset_end`, and offsets are non-decreasing
across the sequence: each segment starts no earlier than the previous one
ends. -/
theorem C6_offsets : ∀ text : String,
    (∀ s ∈ split_segments text, s.char_offset_start < s.char_offset_end) ∧
    (split_segments text).Chain'
      (fun a b => a.char_offset_end ≤ b.char_offset_start) := by
  intro text
  unfold split_segments merge_consecutive_narration
  cases hmk : mk_segments (split_nl text.data) 0 0 1 with
  | nil => exact ⟨fun s h => absurd h (List.not_mem_nil s), by trivial⟩
  | cons s rest =>
    obtain ⟨hb, hp⟩ := mk_segments_props (split_nl text.data) 0 0 1
    rw [hmk] at hb hp
    obtain ⟨m1, m2, m3⟩ := merge_go_props 800 rest s
      (hb s (List.mem_cons_self _ _)).2
      (fun t ht => (hb t (List.mem_cons_of_mem _ ht)).2) hp
    obtain ⟨r1, r2⟩ := renumber_props (merge_go 800 s rest) 1
    constructor
    · intro t ht
      obtain ⟨v, hv, he1, he2⟩ := r1 t ht
      rw [he1, he2]
      exact m1 v hv
    · exact (r2 m3).chain'

end AudiobookPipeline

namespace AudiobookPipeline

theorem apply_emotion_kind (m : Nat → Option (String × ℚ)) (s : Segment) :
    (apply_emotion_map m s).kind = s.kind := by
  unfold apply_emotion_map
  cases m s.id with
  | none => rfl
  | some p =>
    obtain ⟨em, inten⟩ := p
    dsimp only
    split <;> rfl

theorem classify_go_mem
    (oracle : List (Nat × String × String) → Nat → Option (String × ℚ))
    (fuel : Nat) :
    ∀ segs, ∀ s ∈ classify_go oracle fuel segs,
      ∃ u ∈ segs, s = u ∨ ∃ items, s = apply_emotion_map (oracle items) u := by
  induction fuel with
  | zero => intro segs s hs; exact ⟨s, hs, Or.inl rfl⟩
  | succ fuel ih =>
    intro segs s hs
    cases segs with
    | nil => simp [classify_go] at hs
    | cons a rest =>
      simp only [classify_go] at hs
      rcases List.mem_append.mp hs with h | h
      · obtain ⟨u, hu, he⟩ := List.mem_map.mp h
        refine ⟨u, ?_, Or.inr ⟨_, he.symm⟩⟩
        rcases List.mem_cons.mp hu with h1 | h1
        · exact h1 ▸ List.mem_cons_self _ _
        · exact List.mem_cons_of_mem _ (List.take_subset _ _ h1)
      · obtain ⟨u, hu, hcase⟩ := ih _ s h
        exact ⟨u, List.mem_cons_of_mem _ (List.drop_subset _ _ hu), hcase⟩

/-- C3 amended: Stage 8 batches ALL segments (narration included) and its
update loop checks only id-membership and the allowed-emotion list, so
narration keeps `(neutral, 1/2)` exactly when the LLM responses never map
a narration segment's id; under that hypothesis every narration segment
still has `emotion = "neutral"` and `intensity = 1/2` afterwards. -/
theorem C3_emotions
    (oracle : List (Nat × String × String) → Nat → Option (String × ℚ))
    (segs : List Segment)
    (hna : ∀ s ∈ segs, s.kind = "narration" →
      s.emotion = "neutral" ∧ s.intensity = 1/2)
    (hor : ∀ items r, ∀ s ∈ segs, s.kind = "narration" →
      oracle items s.id ≠ some r) :
    ∀ s ∈ classify_emotions oracle segs, s.kind = "narration" →
      s.emotion = "neutral" ∧ s.intensity = 1/2 := by
  intro s hs hk
  by_cases he : segs.isEmpty
  · rw [classify_emotions, if_pos he] at hs
    exact hna s hs hk
  · rw [classify_emotions, if_neg he] at hs
    obtain ⟨u, hu, hcase⟩ := classify_go_mem oracle segs.length segs s hs
    rcases hcase with h | ⟨items, h⟩
    · rw [h]
      exact hna u hu (h ▸ hk)
    · have hku : u.kind = "narration" := by
        rw [← apply_emotion_kind (oracle items) u, ← h]
        exact hk
      cases hm : oracle items u.id with
      | none =>
        have hsu : s = u := by
          rw [h, apply_emotion_map, hm]
        rw [hsu]
        exact hna u hu (hsu ▸ hk)
      | some r =>
        exact absurd hm (hor items r u hu hku)

/-- Witness for `C3_emotions`: with the everywhere-failing oracle the
single narration segment survives Stage 8 with `(neutral, 1/2)`. -/
theorem C3_emotions_witness :
    c3nseg ∈ classify_emotions (fun _ _ => none) [c3nseg] ∧
    c3nseg.emotion = "neutral" ∧ c3nseg.intensity = 1/2 := by
  have hmem : c3nseg ∈ classify_emotions (fun _ _ => none) [c3nseg] := by
    rw [show classify_emotions (fun _ _ => none) [c3nseg] = [c3nseg] from rfl]
    exact List.mem_singleton.mpr rfl
  refine ⟨hmem, ?_⟩
  exact C3_emotions (fun _ _ => none) [c3nseg]
    (by
      intro s hs hk
      rw [List.mem_singleton] at hs
      subst hs
      exact ⟨rfl, rfl⟩)
    (fun _ _ _ _ _ h => Option.noConfusion h)
    c3nseg hmem rfl

/-- C3 counterexample: `classify_emotions` sends every segment to the LLM
and applies the response to narration too: on a single narration segment
that enters Stage 8 with `(neutral, 1/2)`, a response naming its id with
the allowed emotion `sad` leaves the narration segment with
`emotion = "sad"` after Stage 8 — refuting the claim that every narration
segment still has `emotion = "neutral"` for every input and response. -/
theorem C3_counterexample :
    c3nseg.kind = "narration" ∧ c3nseg.emotion = "neutral" ∧
      c3nseg.intensity = 1/2 ∧
      (classify_emotions c3oracle [c3nseg]).map (fun s => (s.kind, s.emotion)) =
        [("narration", "sad")] := by
  refine ⟨rfl, rfl, rfl, ?_⟩
  rfl

end AudiobookPipeline


namespace AudiobookPipeline

theorem ci_bump_keys (ci : List (String × Nat × Nat × Nat)) (n : String)
    (dm df : Nat) :
    (ci_bump ci n dm df).map Prod.fst = ci.map Prod.fst := by
  induction ci with
  | nil => rfl
  | cons e rest ih =>
    simp only [ci_bump, List.map_cons] at ih ⊢
    rw [ih]
    by_cases h : e.1 = n
    · rw [if_pos h]
    · rw [if_neg h]

theorem registry_keys_go (segs : List Segment) :
    ∀ (k s : Nat) (ci : List (String × Nat × Nat × Nat)),
      ((List.range' s k).foldl (registry_step segs) ci).map Prod.fst =
        ci.map Prod.fst ++ registry_names (ci.map Prod.fst) ((segs.drop s).take k) := by
  intro k
  induction k with
  | zero => intro s ci; simp [registry_names]
  | succ k ih =>
    intro s ci
    have hr : (List.range' s (k + 1)).foldl (registry_step segs) ci =
        (List.range' (s + 1) k).foldl (registry_step segs) (registry_step segs ci s) := rfl
    rw [hr]
    cases hg : segs.get? s with
    | none =>
      have hlen : segs.length ≤ s := List.get?_eq_none.mp hg
      have hd1 : segs.drop s = [] := by
        rw [List.drop_eq_nil_iff]
        exact hlen
      have hd2 : segs.drop (s + 1) = [] := by
        rw [List.drop_eq_nil_iff]
        omega
      have hstep : registry_step segs ci s = ci := by
        rw [registry_step, hg]
      rw [hstep, ih (s + 1) ci, hd1, hd2]
      simp [registry_names]
    | some seg =>
      have hlt : s < segs.length := by
        by_contra hc
        rw [List.get?_eq_none.mpr (by omega)] at hg
        exact Option.noConfusion hg
      have hd1 : segs.drop s = seg :: segs.drop (s + 1) := by
        rw [List.drop_eq_getElem_cons hlt]
        have hgg := List.get?_eq_get hlt
        rw [hg] at hgg
        have : segs.get ⟨s, hlt⟩ = seg := (Option.some.injEq _ _).mp hgg.symm
        rw [← this]
        rfl
      rw [hd1, List.take_succ_cons]
      by_cases hel : seg.kind ≠ "dialogue" ∨ seg.speaker = "unknown" ∨ seg.speaker = "narrator"
      · have hstep : registry_step segs ci s = ci := by
          rw [registry_step, hg]
          dsimp only
          rw [if_pos hel]
        have hnc : ¬ (seg.kind = "dialogue" ∧ seg.speaker ≠ "unknown" ∧
            seg.speaker ≠ "narrator" ∧ ¬ seg.speaker ∈ ci.map Prod.fst) := by
          intro hcon
          rcases hel with h | h | h
          · exact h hcon.1
          · exact hcon.2.1 h
          · exact hcon.2.2.1 h
        rw [hstep, ih (s + 1) ci, registry_names, if_neg hnc]
      · push_neg at hel
        obtain ⟨hk, hu, hn⟩ := hel
        by_cases hmem : seg.speaker ∈ ci.map Prod.fst
        · have hstep : registry_step segs ci s =
              ci_bump ci seg.speaker
                ((neighbor_votes (if s = 0 then none else segs.get? (s - 1))).1 +
                  (neighbor_votes (segs.get? (s + 1))).1)
                ((neighbor_votes (if s = 0 then none else segs.get? (s - 1))).2 +
                  (neighbor_votes (segs.get? (s + 1))).2) := by
            rw [registry_step, hg]
            dsimp only
            rw [if_neg (by push_neg; exact ⟨hk, hu, hn⟩), if_pos hmem]
          have hnc : ¬ (seg.kind = "dialogue" ∧ seg.speaker ≠ "unknown" ∧
              seg.speaker ≠ "narrator" ∧ ¬ seg.speaker ∈ ci.map Prod.fst) := by
            intro hcon
            exact hcon.2.2.2 hmem
          rw [hstep, ih (s + 1) _, ci_bump_keys, registry_names, if_neg hnc]
        · have hstep : registry_step segs ci s =
              ci_bump (ci ++ [(seg.speaker, 0, 0, 0)]) seg.speaker
                ((neighbor_votes (if s = 0 then none else segs.get? (s - 1))).1 +
                  (neighbor_votes (segs.get? (s + 1))).1)
                ((neighbor_votes (if s = 0 then none else segs.get? (s - 1))).2 +
                  (neighbor_votes (segs.get? (s + 1))).2) := by
            rw [registry_step, hg]
            dsimp only
            rw [if_neg (by push_neg; exact ⟨hk, hu, hn⟩), if_neg hmem]
          rw [hstep, ih (s + 1) _, ci_bump_keys, registry_names,
            if_pos ⟨hk, hu, hn, hmem⟩]
          simp

theorem map_name_registry (l : List (String × Nat × Nat × Nat)) :
    ((l.map (fun e => (⟨e.1, String.intercalate ", "
        ((if e.2.2.2 < e.2.2.1 then ["male"]
          else if e.2.2.1 < e.2.2.2 then ["female"] else []) ++
          [toString e.2.1 ++ " dialogue segment(s)"])⟩ : Character))).map
      (fun c => c.name)) = l.map Prod.fst := by
  induction l with
  | nil => rfl
  | cons e rest ih => simp only [List.map_cons, ih]

theorem build_character_registry_names (segs : List Segment) :
    (build_character_registry segs).map (fun c => c.name) =
      "narrator" :: registry_names [] segs := by
  have h := registry_keys_go segs segs.length 0 []
  rw [List.drop_zero, List.take_length] at h
  simp only [List.map_nil, List.nil_append] at h
  simp only [build_character_registry, List.map_cons]
  rw [map_name_registry]
  rw [show build_char_info segs =
      (List.range segs.length).foldl (registry_step segs) [] from rfl,
    List.range_eq_range']
  rw [h]

/-- C4 amended: after pipeline completion the returned characters list is
exactly `narrator` followed by the speakers of the dialogue segments AS OF
THE END OF STAGE 3 (excluding `unknown` and `narrator`), in
first-occurrence order — the registry is built at Stage 4 and never
updated, so speakers first introduced by Stage 7 AI attribution or the
last-known-speaker fallback are NOT included. -/
theorem C4_registry (m : Matchers)
    (aiOracle : List String → List Query → List (Nat × String))
    (emOracle : List (Nat × String × String) → Nat → Option (String × ℚ))
    (durations : Nat → Nat) (text title : String) :
    (run_pipeline m aiOracle emOracle durations text title).characters.map
        (fun c => c.name) =
      "narrator" :: registry_names []
        (apply_turn_taking (attribute_explicit m (split_segments text))) := by
  have h : (run_pipeline m aiOracle emOracle durations text title).characters =
      build_character_registry
        (apply_turn_taking (attribute_explicit m (split_segments text))) := rfl
  rw [h, build_character_registry_names]

/-- C4 counterexample: on two unattributed dialogue paragraphs with an AI
oracle that names the previously unseen speaker `Zed`, the completed
pipeline returns segments spoken by `Zed` while the characters list is
still just `[narrator]` — refuting the claim that the characters list
contains every speaker appearing on dialogue segments, including those
first introduced after Stage 4. -/
theorem C4_counterexample :
    c4res.segments.map (fun s => s.speaker) = ["Zed", "Zed"] ∧
    c4res.characters.map (fun c => c.name) = ["narrator"] ∧
    ¬ "Zed" ∈ c4res.characters.map (fun c => c.name) := by
  refine ⟨by decide, by decide, by decide⟩

theorem sum_filter_split (ms : List NodeMetrics)
    (h : ∀ x ∈ ms, x.node_type = "programmatic" ∨ x.node_type = "ai") :
    ((ms.map (fun x => x.duration_ms)).sum : Int) =
      (((ms.filter (fun x => decide (x.node_type = "programmatic"))).map
        (fun x => x.duration_ms)).sum : Int) +
      (((ms.filter (fun x => decide (x.node_type = "ai"))).map
        (fun x => x.duration_ms)).sum : Int) := by
  induction ms with
  | nil => rfl
  | cons x rest ih =>
    have hx := h x (List.mem_cons_self _ _)
    have ihr := ih (fun y hy => h y (List.mem_cons_of_mem _ hy))
    rcases hx with hx | hx <;>
      simp only [List.map_cons, List.sum_cons, List.filter_cons, hx] <;>
      norm_num <;> push_cast at ihr ⊢ <;> omega

theorem build_report_spec (ms : List NodeMetrics)
    (h : ∀ x ∈ ms, x.node_type = "programmatic" ∨ x.node_type = "ai") :
    ∃ p a : ℤ,
      rlookup (build_report ms) "programmatic_duration_ms" = some (RVal.num p) ∧
      rlookup (build_report ms) "ai_duration_ms" = some (RVal.num a) ∧
      rlookup (build_report ms) "total_duration_ms" = some (RVal.num (p + a)) := by
  refine ⟨_, _, rfl, rfl, ?_⟩
  have hs := sum_filter_split ms h
  rw [show rlookup (build_report ms) "total_duration_ms" =
      some (RVal.num ((ms.map (fun x => x.duration_ms)).sum : Int)) from rfl]
  rw [hs]

/-- C9 amended: the report of every completed run is `_build_report` of
eight per-stage metrics whose `(node_name, node_type, duration_ms)`
triples are the eight stages in order with types
`programmatic`/`ai`; its keys are `total_duration_ms`,
`programmatic_duration_ms`, `ai_duration_ms` and `nodes` (NOT
`local_duration_ms`/`llm_duration_ms`); the total equals
programmatic + ai; and each per-node entry carries the keys
`node`/`type`/`duration_ms`/`segments_processed`/`segments_affected`
(NOT `name`). -/
theorem C9_report (m : Matchers)
    (aiOracle : List String → List Query → List (Nat × String))
    (emOracle : List (Nat × String × String) → Nat → Option (String × ℚ))
    (durations : Nat → Nat) (text title : String) :
    ∃ ms : List NodeMetrics,
      (run_pipeline m aiOracle emOracle durations text title).report =
        build_report ms ∧
      ms.map (fun x => (x.node_name, x.node_type, x.duration_ms)) =
        [("segment_splitter", "programmatic", durations 1),
         ("explicit_attribution", "programmatic", durations 2),
         ("turn_taking", "programmatic", durations 3),
         ("character_registry", "programmatic", durations 4),
         ("pause_timing", "programmatic", durations 5),
         ("validation", "programmatic", durations 6),
         ("ai_attribution", "ai", durations 7),
         ("emotion_classifier", "ai", durations 8)] ∧
      (build_report ms).map Prod.fst =
        ["total_duration_ms", "programmatic_duration_ms", "ai_duration_ms",
         "nodes"] ∧
      (∃ p a : ℤ,
        rlookup (build_report ms) "programmatic_duration_ms" =
          some (RVal.num p) ∧
        rlookup (build_report ms) "ai_duration_ms" = some (RVal.num a) ∧
        rlookup (build_report ms) "total_duration_ms" =
          some (RVal.num (p + a))) ∧
      rlookup (build_report ms) "nodes" =
        some (RVal.arr (ms.map node_entry)) ∧
      (ms.map node_entry).map (fun e =>
          (rlookup e "node", rlookup e "type", rlookup e "duration_ms")) =
        [(some (RVal.str "segment_splitter"), some (RVal.str "programmatic"),
            some (RVal.num (durations 1 : Int))),
         (some (RVal.str "explicit_attribution"), some (RVal.str "programmatic"),
            some (RVal.num (durations 2 : Int))),
         (some (RVal.str "turn_taking"), some (RVal.str "programmatic"),
            some (RVal.num (durations 3 : Int))),
         (some (RVal.str "character_registry"), some (RVal.str "programmatic"),
            some (RVal.num (durations 4 : Int))),
         (some (RVal.str "pause_timing"), some (RVal.str "programmatic"),
            some (RVal.num (durations 5 : Int))),
         (some (RVal.str "validation"), some (RVal.str "programmatic"),
            some (RVal.num (durations 6 : Int))),
         (some (RVal.str "ai_attribution"), some (RVal.str "ai"),
            some (RVal.num (durations 7 : Int))),
         (some (RVal.str "emotion_classifier"), some (RVal.str "ai"),
            some (RVal.num (durations 8 : Int)))] ∧
      (ms.map node_entry).map (fun e => e.map Prod.fst) =
        List.replicate 8
          ["node", "type", "duration_ms", "segments_processed",
           "segments_affected"] := by
  refine ⟨_, rfl, rfl, rfl, build_report_spec _ ?_, rfl, rfl, rfl⟩
  intro x hx
  simp only [List.mem_cons, List.not_mem_nil, or_false] at hx
  rcases hx with rfl | rfl | rfl | rfl | rfl | rfl | rfl | rfl
  · exact Or.inl rfl
  · exact Or.inl rfl
  · exact Or.inl rfl
  · exact Or.inl rfl
  · exact Or.inl rfl
  · exact Or.inl rfl
  · exact Or.inr rfl
  · exact Or.inr rfl

/-- C9 counterexample: on a concrete completed run the report has no
`local_duration_ms` or `llm_duration_ms` key (the keys are the
`programmatic`/`ai` spellings), the per-node entries answer nothing for
`name` (the key is `node`), and their `type` values are
`programmatic`/`ai`, which differ from the claimed `local`/`llm`. -/
theorem C9_counterexample :
    rlookup c9res.report "local_duration_ms" = none ∧
    rlookup c9res.report "llm_duration_ms" = none ∧
    c9res.report.map Prod.fst =
      ["total_duration_ms", "programmatic_duration_ms", "ai_duration_ms",
       "nodes"] ∧
    ∃ nodes : List (List (String × RVal)),
      rlookup c9res.report "nodes" = some (RVal.arr nodes) ∧
      nodes.map (fun e => rlookup e "name") = List.replicate 8 none ∧
      nodes.map (fun e => rlookup e "type") =
        [some (RVal.str "programmatic"), some (RVal.str "programmatic"),
         some (RVal.str "programmatic"), some (RVal.str "programmatic"),
         some (RVal.str "programmatic"), some (RVal.str "programmatic"),
         some (RVal.str "ai"), some (RVal.str "ai")] ∧
      RVal.str "programmatic" ≠ RVal.str "local" ∧
      RVal.str "programmatic" ≠ RVal.str "llm" ∧
      RVal.str "ai" ≠ RVal.str "local" ∧
      RVal.str "ai" ≠ RVal.str "llm" := by
  refine ⟨rfl, rfl, rfl, _, rfl, rfl, rfl, ?_, ?_, ?_, ?_⟩ <;> simp


end AudiobookPipeline
